import Mathlib

/-!
Verification of the semantic analyzer of CPython's cases generator
(`Tools/cases_generator/analyzer.py`) against its specification.

The analyzer consumes parsed AST nodes (operation definitions, macros,
families, pseudo-instructions) and produces an `Analysis` value: registries
of uops, instructions, families and pseudo-instructions plus a
deterministic opcode numbering.

The shallow embedding below translates the Python source into Lean:
  * Python dataclasses become structures;
  * Python dicts (which preserve insertion order) become association lists
    with `pyInsert` (replace-in-place or append) semantics;
  * token objects, whose identity is used as dictionary keys, carry a
    unique numeric `idx` so that structural equality coincides with
    identity;
  * functions that can raise become `Except AErr`; `assert` failures,
    `StopIteration` and `IndexError` are distinguished error constructors;
  * back-references that are object aliases in Python (`Instruction.family`,
    `Uop.replicates`, family members, pseudo targets) are represented by
    name, as the spec's design notes prescribe for ownership-strict
    reimplementations.
-/

namespace CasesAnalyzer

/-- A token of the DSL source.  `idx` is a unique sequence index standing in
for Python object identity (tokens are used as dict keys). -/
structure Token where
  idx : Nat
  kind : String
  text : String
deriving DecidableEq, Repr

/-- Errors raised by the analyzer.  `analysisError` corresponds to the
positioned `SyntaxError` built by `analysis_error`; the other constructors
model Python runtime exceptions that the source can raise on malformed
input (`assert` failures, `next()` on an exhausted iterator, out-of-range
indexing, `int()` on a non-numeral). -/
inductive AErr where
  | analysisError (msg : String) (tkn : Token)
  | assertionError
  | stopIteration
  | indexError
  | keyError
  | valueError
deriving DecidableEq, Repr

/-- Association-list lookup with first-match semantics (Python dict lookup;
keys are unique in every dict the analyzer builds). -/
def pyLookup {k v : Type} [DecidableEq k] : List (k × v) → k → Option v
  | [], _ => none
  | (a, b) :: rest, key => if a = key then some b else pyLookup rest key

/-- Python dict assignment `d[key] = val`: replace in place if the key is
present (keeping its position), else append. -/
def pyInsert {k v : Type} [DecidableEq k] : List (k × v) → k → v → List (k × v)
  | [], key, val => [(key, val)]
  | (a, b) :: rest, key, val =>
    if a = key then (a, val) :: rest else (a, b) :: pyInsert rest key val

/-- The keys of a dict, in insertion order. -/
def pyKeys {k v : Type} : List (k × v) → List k := List.map Prod.fst

/-- The values of a dict, in insertion order (`dict.values()`). -/
def pyValues {k v : Type} : List (k × v) → List v := List.map Prod.snd

/-- The escaping-call map: call-statement start token ↦
(invoked-function token, next-statement start token). -/
abbrev EscMap := List (Token × (Token × Token))

/-- Python `dict.update`: insert every entry of `new` into `m`. -/
def escUpdate (m new : EscMap) : EscMap :=
  new.foldl (fun acc e => pyInsert acc e.1 e.2) m

/-- `Properties`: the flat bag of behavior flags computed for one
operation (dataclass `Properties` in the source). -/
structure Properties where
  escaping_calls : EscMap
  error_with_pop : Bool
  error_without_pop : Bool
  deopts : Bool
  oparg : Bool
  jumps : Bool
  eval_breaker : Bool
  needs_this : Bool
  always_exits : Bool
  stores_sp : Bool
  uses_co_consts : Bool
  uses_co_names : Bool
  uses_locals : Bool
  has_free : Bool
  side_exit : Bool
  pure : Bool
  tier : Option Nat
  oparg_and_1 : Bool
  const_oparg : Int
  needs_prev : Bool
deriving DecidableEq, Repr

/-- `Properties.from_list`: combine several operations' Properties into
one.  Escaping-call maps are merged with dict `update`; every boolean flag
passed to the constructor combines by `any`, purity by `all`; the fields
not passed (`tier`, `oparg_and_1`, `const_oparg`) take their dataclass
defaults `None`, `False`, `-1`. -/
def Properties.from_list (properties : List Properties) : Properties where
  escaping_calls := properties.foldl (fun acc p => escUpdate acc p.escaping_calls) []
  error_with_pop := properties.any (fun p => p.error_with_pop)
  error_without_pop := properties.any (fun p => p.error_without_pop)
  deopts := properties.any (fun p => p.deopts)
  oparg := properties.any (fun p => p.oparg)
  jumps := properties.any (fun p => p.jumps)
  eval_breaker := properties.any (fun p => p.eval_breaker)
  needs_this := properties.any (fun p => p.needs_this)
  always_exits := properties.any (fun p => p.always_exits)
  stores_sp := properties.any (fun p => p.stores_sp)
  uses_co_consts := properties.any (fun p => p.uses_co_consts)
  uses_co_names := properties.any (fun p => p.uses_co_names)
  uses_locals := properties.any (fun p => p.uses_locals)
  has_free := properties.any (fun p => p.has_free)
  side_exit := properties.any (fun p => p.side_exit)
  pure := properties.all (fun p => p.pure)
  tier := none
  oparg_and_1 := false
  const_oparg := -1
  needs_prev := properties.any (fun p => p.needs_prev)

/-- Derived predicate `Properties.escapes`: the escaping-call map is
non-empty. -/
def Properties.escapes (p : Properties) : Bool :=
  !p.escaping_calls.isEmpty

/-- `SKIP_PROPERTIES`: the fixed no-op Properties value carried by `Skip`
and `Flush` parts. -/
def SKIP_PROPERTIES : Properties where
  escaping_calls := []
  error_with_pop := false
  error_without_pop := false
  deopts := false
  oparg := false
  jumps := false
  eval_breaker := false
  needs_this := false
  always_exits := false
  stores_sp := false
  uses_co_consts := false
  uses_co_names := false
  uses_locals := false
  has_free := false
  side_exit := false
  pure := true
  tier := none
  oparg_and_1 := false
  const_oparg := -1
  needs_prev := false

/-- `Skip`: an unused cache entry of a given byte size. -/
structure Skip where
  size : Nat
deriving DecidableEq, Repr

def Skip.properties (_ : Skip) : Properties := SKIP_PROPERTIES

/-- `Flush`: a zero-size materialization boundary marker. -/
structure Flush where
deriving DecidableEq, Repr

def Flush.properties (_ : Flush) : Properties := SKIP_PROPERTIES

def Flush.size (_ : Flush) : Nat := 0

/-- `StackItem`: one declared stack slot.  `condition` and `size` are the
raw strings from the parser (empty string for absent). -/
structure StackItem where
  name : String
  type : Option String
  condition : String
  size : String
  peek : Bool
  used : Bool
deriving DecidableEq, Repr

/-- `StackEffect`: declared inputs and outputs of one operation. -/
structure StackEffect where
  inputs : List StackItem
  outputs : List StackItem
deriving DecidableEq, Repr

/-- `CacheEntry`: a named fixed-width operand slot. -/
structure CacheEntry where
  name : String
  size : Nat
deriving DecidableEq, Repr

end CasesAnalyzer

namespace CasesAnalyzer

/-- `parser.StackEffect`: a declared stack item as produced by the parser
(`cond` and `size` are raw strings, empty when absent). -/
structure PStackEffect where
  name : String
  type : Option String
  cond : String
  size : String
  first_token : Token
deriving DecidableEq, Repr

/-- `parser.CacheEffect`: a declared cache operand (size already numeric). -/
structure PCacheEffect where
  name : String
  size : Nat
  first_token : Token
deriving DecidableEq, Repr

/-- `parser.InputEffect`: an input is either a stack item or a cache slot. -/
inductive InputEffect where
  | stack (s : PStackEffect)
  | cache (c : PCacheEffect)
deriving DecidableEq, Repr

def InputEffect.name : InputEffect → String
  | .stack s => s.name
  | .cache c => c.name

def InputEffect.first_token : InputEffect → Token
  | .stack s => s.first_token
  | .cache c => c.first_token

/-- `parser.InstDef`: an operation/instruction definition node.  `kind` is
the string tag distinguishing implicit-wrapper (`inst`) from primitive
(`op`) definitions; `block` is `node.block.tokens`, `tokens` the whole
node's token list; `context` is the (opaque) source context. -/
structure InstDef where
  kind : String
  name : String
  annotations : List String
  inputs : List InputEffect
  outputs : List PStackEffect
  block : List Token
  tokens : List Token
  context : Option String
  first_token : Token
deriving DecidableEq, Repr

/-- `parser.Pseudo`: a pseudo-instruction declaration node. -/
structure PseudoNode where
  name : String
  inputs : List InputEffect
  outputs : List PStackEffect
  targets : List String
  as_sequence : Bool
  flags : List String
deriving DecidableEq, Repr

/-- The argument type of `analyze_stack` (`parser.InstDef | parser.Pseudo`). -/
inductive InstOrPseudo where
  | inst (d : InstDef)
  | pseudo (p : PseudoNode)
deriving DecidableEq, Repr

def InstOrPseudo.inputs : InstOrPseudo → List InputEffect
  | .inst d => d.inputs
  | .pseudo p => p.inputs

def InstOrPseudo.outputs : InstOrPseudo → List PStackEffect
  | .inst d => d.outputs
  | .pseudo p => p.outputs

/-- Strip a literal character sequence from the front of a list. -/
def stripLit : List Char → List Char → Option (List Char)
  | [], cs => some cs
  | _ :: _, [] => none
  | p :: ps, c :: cs => if c = p then stripLit ps cs else none

/-- The compiled regex `OPARG_AND_1 = re.compile("\\(*oparg *& *1")` applied
with `re.match` (anchored at the start, arbitrary tail). -/
def opargAnd1Match (s : String) : Bool :=
  let cs := (s.toList).dropWhile (fun c => c = '(')
  match stripLit ("oparg".toList) cs with
  | none => false
  | some r1 =>
    match stripLit ['&'] (r1.dropWhile (fun c => c = ' ')) with
    | none => false
    | some r2 =>
      match stripLit ['1'] (r2.dropWhile (fun c => c = ' ')) with
      | none => false
      | some _ => true

/-- Python truthiness of the optional replacement string. -/
def strTruthy : Option String → Bool
  | none => false
  | some s => !(s = "")

/-- `convert_stack_item`: build a `StackItem` from a parsed stack effect,
substituting the condition when it matches the oparg-low-bit pattern and a
(truthy) replacement is supplied. -/
def convert_stack_item (item : PStackEffect) (replace_op_arg_1 : Option String) :
    StackItem :=
  let cond :=
    if strTruthy replace_op_arg_1 && opargAnd1Match item.cond then
      replace_op_arg_1.getD item.cond
    else item.cond
  { name := item.name, type := item.type, condition := cond, size := item.size,
    peek := false, used := false }

/-- `variable_used`: whether an identifier token with the given text occurs
in the node's body block. -/
def variable_used (op : InstDef) (name : String) : Bool :=
  op.block.any (fun t => t.kind = "IDENTIFIER" && t.text = name)

/-- The message of the positioned reuse error raised by `analyze_stack`
(quotation marks around the variable name elided). -/
def reuse_error_message (name : String) : String :=
  "Reuse of variable " ++ name ++ " at different stack location"

/-- The `itertools.zip_longest` walk at the heart of `analyze_stack`:
pairs inputs and outputs by position, marks matching names before any
divergence as peeks (the `modified` flag latches on the first divergence),
and raises a reuse error when an output name re-occurs at a diverged or
input-exhausted position while also naming a declared input. -/
def stackWalk (input_names : List (String × Token)) :
    List StackItem → List StackItem → Bool →
    Except AErr (List StackItem × List StackItem)
  | ins, [], _ => .ok (ins, [])
  | [], o :: outs, modified =>
    match pyLookup input_names o.name with
    | some t => .error (.analysisError (reuse_error_message o.name) t)
    | none => do
      let (a, b) ← stackWalk input_names [] outs modified
      .ok (a, o :: b)
  | i :: ins, o :: outs, modified =>
    if i.name = o.name then
      if modified then do
        let (a, b) ← stackWalk input_names ins outs modified
        .ok (i :: a, o :: b)
      else do
        let (a, b) ← stackWalk input_names ins outs modified
        .ok ({ i with peek := true } :: a, { o with peek := true } :: b)
    else
      match pyLookup input_names o.name with
      | some t => .error (.analysisError (reuse_error_message o.name) t)
      | none => do
        let (a, b) ← stackWalk input_names ins outs true
        .ok (i :: a, o :: b)

/-- The `used`-marking pass of `analyze_stack`, applied when the node is a
`parser.InstDef` (both `inst`- and `op`-kind definitions). -/
def markUsed (op : InstDef) (ins outs : List StackItem) :
    List StackItem × List StackItem :=
  let output_names := outs.map (fun o => o.name)
  (ins.map (fun input =>
      if variable_used op input.name || variable_used op "DECREF_INPUTS" ||
          (!input.peek && output_names.contains input.name) then
        { input with used := true }
      else input),
   outs.map (fun output =>
      if variable_used op output.name then { output with used := true }
      else output))

/-- The converted stack inputs of `analyze_stack` (cache effects are
filtered out of the walked list). -/
def stack_inputs (op : InstOrPseudo) (replace_op_arg_1 : Option String) :
    List StackItem :=
  op.inputs.filterMap (fun i =>
    match i with
    | .stack s => some (convert_stack_item s replace_op_arg_1)
    | .cache _ => none)

/-- The converted stack outputs of `analyze_stack`. -/
def stack_outputs (op : InstOrPseudo) (replace_op_arg_1 : Option String) :
    List StackItem :=
  op.outputs.map (fun o => convert_stack_item o replace_op_arg_1)

/-- The `input_names` dict of `analyze_stack`: every declared input (stack
or cache) other than `unused`, mapped to its first token (a dict
comprehension, so a repeated name keeps the last token). -/
def input_names_dict (op : InstOrPseudo) : List (String × Token) :=
  op.inputs.foldl (fun acc i =>
    if i.name = "unused" then acc else pyInsert acc i.name i.first_token) []

/-- `analyze_stack`: resolve the declared stack effect of one operation. -/
def analyze_stack (op : InstOrPseudo) (replace_op_arg_1 : Option String) :
    Except AErr StackEffect := do
  let (ins, outs) ← stackWalk (input_names_dict op)
    (stack_inputs op replace_op_arg_1) (stack_outputs op replace_op_arg_1) false
  match op with
  | .inst d =>
    let (ins2, outs2) := markUsed d ins outs
    .ok { inputs := ins2, outputs := outs2 }
  | .pseudo _ => .ok { inputs := ins, outputs := outs }

end CasesAnalyzer

namespace CasesAnalyzer

/-- `Uop`: one primitive operation's full record.  The lazily cached
`_size` of the source is replaced by the eager `Uop.size` below; the
`replicates` back-reference is by name. -/
structure Uop where
  name : String
  context : Option String
  annotations : List String
  stack : StackEffect
  caches : List CacheEntry
  deferred_refs : List (Token × Option String)
  output_stores : List Token
  body : List Token
  properties : Properties
  implicitly_created : Bool
  replicated : Nat
  replicates : Option String
  instruction_size : Option Nat
deriving DecidableEq, Repr

/-- `Uop.size`: the summed byte size of the cache entries (the source
computes this once and caches it in `_size`). -/
def Uop.size (u : Uop) : Nat := (u.caches.map (fun c => c.size)).sum

/-- `Part = Uop | Skip | Flush`: one positional element of an
Instruction's body. -/
inductive Part where
  | uop (u : Uop)
  | skip (s : Skip)
  | flush (f : Flush)
deriving DecidableEq, Repr

def Part.size : Part → Nat
  | .uop u => u.size
  | .skip s => s.size
  | .flush f => f.size

def Part.properties : Part → Properties
  | .uop u => u.properties
  | .skip s => s.properties
  | .flush f => f.properties

/-- `Instruction`: a composite bytecode instruction.  `where'` is the
defining token; `family` is the name-keyed back-reference; `opcode` is -1
until assignment. -/
structure Instruction where
  where' : Token
  name : String
  parts : List Part
  is_target : Bool
  family : Option String
  opcode : Int
deriving DecidableEq, Repr

/-- `Instruction.properties`: the union over the parts' Properties (the
source computes this lazily into `_properties`; the value is identical). -/
def Instruction.properties (i : Instruction) : Properties :=
  Properties.from_list (i.parts.map Part.properties)

/-- `Instruction.size`: 1 opcode byte plus the parts' sizes. -/
def Instruction.size (i : Instruction) : Nat :=
  1 + (i.parts.map Part.size).sum

/-- `PseudoInstruction`: a name resolved later to one of several concrete
target instructions (targets referenced by name). -/
structure PseudoInstruction where
  name : String
  stack : StackEffect
  targets : List String
  as_sequence : Bool
  flags : List String
  opcode : Int
deriving DecidableEq, Repr

/-- `Family`: a specialization family (members referenced by name). -/
structure Family where
  name : String
  size : String
  members : List String
deriving DecidableEq, Repr

/-- Abbreviation for building concrete tokens in examples. -/
def tk (i : Nat) (k t : String) : Token := { idx := i, kind := k, text := t }

/-- Abbreviation for building concrete parsed stack effects in examples. -/
def pse (i : Nat) (nm : String) : PStackEffect :=
  { name := nm, type := none, cond := "", size := "", first_token := tk i "IDENTIFIER" nm }

/-- The condition under which the `analyze_stack` walk grants the peek
marking to the pair at position `j`: both lists reach `j` and the declared
names agree on every position up to and including `j`. -/
def peekGranted (ins outs : List StackItem) (j : Nat) : Prop :=
  j < ins.length ∧ j < outs.length ∧
    (ins.take (j+1)).map StackItem.name = (outs.take (j+1)).map StackItem.name

instance (ins outs : List StackItem) (j : Nat) : Decidable (peekGranted ins outs j) := by
  unfold peekGranted
  infer_instance

/-- C4 example: an inst definition with inputs `[X, Y]` and outputs
`[X, Z]` and an empty body. -/
def c4_exOp : InstOrPseudo := .inst
  { kind := "inst", name := "EX", annotations := [],
    inputs := [.stack (pse 1 "X"), .stack (pse 2 "Y")],
    outputs := [pse 3 "X", pse 4 "Z"],
    block := [tk 5 "LBRACE" "", tk 6 "RBRACE" ""],
    tokens := [tk 5 "LBRACE" "", tk 6 "RBRACE" ""],
    context := none, first_token := tk 0 "IDENTIFIER" "EX" }

/-- C4 reuse example: inputs `[X, Y]`, outputs `[X, X]` — the input name X
re-occurs at output position 1 where the names have diverged. -/
def c4_exReuse : InstOrPseudo := .inst
  { kind := "inst", name := "EXR", annotations := [],
    inputs := [.stack (pse 1 "X"), .stack (pse 2 "Y")],
    outputs := [pse 3 "X", pse 4 "X"],
    block := [tk 5 "LBRACE" "", tk 6 "RBRACE" ""],
    tokens := [tk 5 "LBRACE" "", tk 6 "RBRACE" ""],
    context := none, first_token := tk 0 "IDENTIFIER" "EXR" }

/-- C7 counterexample input: an inst definition whose body references the
destructive-input-release macro `DECREF_INPUTS` (and the input X) but not
the output R. -/
def c7_exInst : InstDef :=
  { kind := "inst", name := "EX7", annotations := [],
    inputs := [.stack (pse 1 "X")],
    outputs := [pse 2 "R"],
    block := [tk 3 "IDENTIFIER" "DECREF_INPUTS", tk 4 "IDENTIFIER" "X"],
    tokens := [tk 3 "IDENTIFIER" "DECREF_INPUTS", tk 4 "IDENTIFIER" "X"],
    context := none, first_token := tk 0 "IDENTIFIER" "EX7" }

/-- C7 counterexample input: an op-kind (not inst-kind) definition whose
body references its input X. -/
def c7_exOpKind : InstDef :=
  { kind := "op", name := "EX7B", annotations := [],
    inputs := [.stack (pse 1 "X")],
    outputs := [],
    block := [tk 3 "IDENTIFIER" "X"],
    tokens := [tk 3 "IDENTIFIER" "X"],
    context := none, first_token := tk 0 "IDENTIFIER" "EX7B" }

/-- The stack item named X with the peek mark, as produced for `c4_exOp`. -/
def c4_itemXpeek : StackItem :=
  { name := "X", type := none, condition := "", size := "", peek := true, used := false }

/-- The resolved stack effect of `c4_exOp`: X is peeked on both sides, Y
and Z are not. -/
def c4_seX : StackEffect :=
  { inputs := [c4_itemXpeek,
      { name := "Y", type := none, condition := "", size := "", peek := false, used := false }],
    outputs := [c4_itemXpeek,
      { name := "Z", type := none, condition := "", size := "", peek := false, used := false }] }

/-- The unpeeked item Y of `c4_exReuse` as converted by `stack_inputs`. -/
def c4_itemY : StackItem :=
  { name := "Y", type := none, condition := "", size := "", peek := false, used := false }

/-- The unpeeked item X of `c4_exReuse` as converted by `stack_outputs`. -/
def c4_itemX : StackItem :=
  { name := "X", type := none, condition := "", size := "", peek := false, used := false }

/-- The output item R of `c7_exInst` after stack analysis: not marked used. -/
def c7_itemR : StackItem :=
  { name := "R", type := none, condition := "", size := "", peek := false, used := false }

/-- The resolved stack effect of `c7_exInst`: the input X is used (its name
is referenced), the output R is not. -/
def c7_se : StackEffect :=
  { inputs := [{ name := "X", type := none, condition := "", size := "", peek := false, used := true }],
    outputs := [c7_itemR] }

instance {e a : Type} [DecidableEq e] [DecidableEq a] : DecidableEq (Except e a) :=
  fun x y =>
    match x, y with
    | .ok v, .ok w =>
      if h : v = w then isTrue (by rw [h]) else isFalse (by intro hc; cases hc; exact h rfl)
    | .error v, .error w =>
      if h : v = w then isTrue (by rw [h]) else isFalse (by intro hc; cases hc; exact h rfl)
    | .ok _, .error _ => isFalse (by intro hc; cases hc)
    | .error _, .ok _ => isFalse (by intro hc; cases hc)

/-- Python `s.upper() == s` for the ASCII identifiers scanned here: no
character changes under uppercasing. -/
def upperEq (s : String) : Bool :=
  s.toList.all (fun c => c.toUpper = c)

/-- Python `s.startswith(p)`. -/
def strStartsWith (s p : String) : Bool :=
  p.toList.isPrefixOf s.toList

/-- Python `s.endswith(p)`. -/
def strEndsWith (s p : String) : Bool :=
  p.toList.isSuffixOf s.toList

/-- The curated allowlist `NON_ESCAPING_FUNCTIONS` of helpers proven not to
release the interpreter lock or trigger garbage collection. -/
def NON_ESCAPING_FUNCTIONS : List String := [
  "PyCFunction_GET_FLAGS", "PyCFunction_GET_FUNCTION", "PyCFunction_GET_SELF",
  "PyCell_GetRef", "PyCell_New", "PyCell_SwapTakeRef", "PyExceptionInstance_Class",
  "PyException_GetCause", "PyException_GetContext", "PyException_GetTraceback",
  "PyFloat_AS_DOUBLE", "PyFloat_FromDouble", "PyFunction_GET_CODE",
  "PyFunction_GET_GLOBALS", "PyList_GET_ITEM", "PyList_GET_SIZE", "PyList_SET_ITEM",
  "PyLong_AsLong", "PyLong_FromLong", "PyLong_FromSsize_t", "PySlice_New",
  "PyStackRef_AsPyObjectBorrow", "PyStackRef_AsPyObjectNew",
  "PyStackRef_AsPyObjectSteal", "PyStackRef_CLEAR", "PyStackRef_CLOSE",
  "PyStackRef_CLOSE_SPECIALIZED", "PyStackRef_DUP", "PyStackRef_False",
  "PyStackRef_FromPyObjectImmortal", "PyStackRef_FromPyObjectNew",
  "PyStackRef_FromPyObjectSteal", "PyStackRef_Is", "PyStackRef_IsNull",
  "PyStackRef_None", "PyStackRef_TYPE", "PyStackRef_True", "PyTuple_GET_ITEM",
  "PyTuple_GET_SIZE", "PyType_HasFeature", "PyUnicode_Append", "PyUnicode_Concat",
  "PyUnicode_GET_LENGTH", "PyUnicode_READ_CHAR", "Py_ARRAY_LENGTH", "Py_CLEAR",
  "Py_DECREF", "Py_FatalError", "Py_INCREF", "Py_IS_TYPE", "Py_NewRef",
  "Py_REFCNT", "Py_SIZE", "Py_TYPE", "Py_UNREACHABLE", "Py_Unicode_GET_LENGTH",
  "Py_XDECREF", "_PyCode_CODE", "_PyDictValues_AddToInsertionOrder",
  "_PyErr_Occurred", "_PyEval_FrameClearAndPop", "_PyFloat_FromDouble_ConsumeInputs",
  "_PyFrame_GetCode", "_PyFrame_IsIncomplete", "_PyFrame_PushUnchecked",
  "_PyFrame_SetStackPointer", "_PyFrame_StackPush", "_PyFunction_SetVersion",
  "_PyGen_GetGeneratorFromFrame", "_PyInterpreterState_GET", "_PyList_AppendTakeRef",
  "_PyList_FromStackRefSteal", "_PyList_ITEMS", "_PyLong_Add", "_PyLong_CompactValue",
  "_PyLong_DigitCount", "_PyLong_IsCompact", "_PyLong_IsNonNegativeCompact",
  "_PyLong_IsZero", "_PyLong_Multiply", "_PyLong_Subtract",
  "_PyManagedDictPointer_IsValues", "_PyObject_GC_IS_TRACKED",
  "_PyObject_GC_MAY_BE_TRACKED", "_PyObject_GC_TRACK", "_PyObject_GetManagedDict",
  "_PyObject_InlineValues", "_PyObject_ManagedDictPointer",
  "_PyThreadState_HasStackSpace", "_PyTuple_FromArraySteal",
  "_PyTuple_FromStackRefSteal", "_PyTuple_ITEMS", "_PyType_HasFeature",
  "_PyType_NewManagedObject", "_PyUnicode_Equal", "_PyUnicode_JoinArray",
  "_Py_CHECK_EMSCRIPTEN_SIGNALS_PERIODICALLY", "_Py_DECREF_NO_DEALLOC",
  "_Py_DECREF_SPECIALIZED", "_Py_EnterRecursiveCallTstateUnchecked", "_Py_ID",
  "_Py_IsImmortal", "_Py_LeaveRecursiveCallPy", "_Py_LeaveRecursiveCallTstate",
  "_Py_NewRef", "_Py_SINGLETON", "_Py_STR", "_Py_atomic_load_uintptr_relaxed",
  "_Py_set_eval_breaker_bit", "advance_backoff_counter", "assert",
  "backoff_counter_triggers", "initial_temperature_backoff_counter",
  "maybe_lltrace_resume_frame", "restart_backoff_counter"]

/-- The backward scan of `find_stmt_start`: walk `idx` down while the
previous token is not a statement boundary.  Python indexes `tokens[idx-1]`,
so at `idx = 0` the LAST token is inspected (negative indexing); if the
scan needs to continue past 0, the `assert idx > 0` fires. -/
def findStmtStartIdx (tokens : List Token) : Nat → Except AErr Nat
  | 0 =>
    match tokens.getLast? with
    | none => .error .indexError
    | some t =>
      if t.kind = "SEMI" || t.kind = "LBRACE" || t.kind = "RBRACE" || t.kind = "CMACRO" then
        .ok 0
      else .error .assertionError
  | idx + 1 =>
    match tokens[idx]? with
    | none => .error .indexError
    | some t =>
      if t.kind = "SEMI" || t.kind = "LBRACE" || t.kind = "RBRACE" || t.kind = "CMACRO" then
        .ok (idx + 1)
      else findStmtStartIdx tokens idx

/-- The forward comment skip of `find_stmt_start` (running past the end of
the list is an IndexError). -/
def skipComments (tokens : List Token) : Nat → Nat → Except AErr Token
  | _, 0 => .error .indexError
  | idx, fuel + 1 =>
    match tokens[idx]? with
    | none => .error .indexError
    | some t =>
      if t.kind = "COMMENT" then skipComments tokens (idx + 1) fuel else .ok t

/-- `find_stmt_start`: the token starting the statement enclosing position
`idx` of the body token list. -/
def find_stmt_start (tokens : List Token) (idx : Nat) : Except AErr Token :=
  if idx < tokens.length then do
    let j ← findStmtStartIdx tokens idx
    skipComments tokens j (tokens.length + 1)
  else .error .assertionError

/-- The forward scan of `find_stmt_end` from a given position: find the
next SEMI and return the token after it. -/
def findStmtEndFrom (tokens : List Token) : Nat → Nat → Except AErr Token
  | _, 0 => .error .indexError
  | idx, fuel + 1 =>
    match tokens[idx]? with
    | none => .error .indexError
    | some t =>
      if t.kind = "SEMI" then
        match tokens[idx + 1]? with
        | none => .error .indexError
        | some u => .ok u
      else findStmtEndFrom tokens (idx + 1) fuel

/-- `find_stmt_end`: the token starting the statement after the one
enclosing position `idx`. -/
def find_stmt_end (tokens : List Token) (idx : Nat) : Except AErr Token :=
  if idx < tokens.length then
    findStmtEndFrom tokens (idx + 1) (tokens.length + 1)
  else .error .assertionError

/-- The scanning loop of `check_escaping_calls` over the body tokens.
`inIf` is the paren-nesting counter inside an if/DEOPT_IF/ERROR_IF
condition; after an IF (or the two macros) the next token is consumed. -/
def checkEscLoop (calls : List Token) : List Token → Nat → Except AErr Unit
  | [], _ => .ok ()
  | t :: rest, inIf =>
    if t.kind = "IF" then
      match rest with
      | [] => .error .stopIteration
      | _ :: rest2 =>
        if calls.contains t then
          .error (.analysisError ("Escaping call " ++ t.text ++ " in condition") t)
        else checkEscLoop calls rest2 1
    else if t.kind = "IDENTIFIER" && (t.text = "DEOPT_IF" || t.text = "ERROR_IF") then
      match rest with
      | [] => .error .stopIteration
      | _ :: rest2 => checkEscLoop calls rest2 1
    else if t.kind = "LPAREN" && decide (0 < inIf) then
      checkEscLoop calls rest (inIf + 1)
    else if t.kind = "RPAREN" then
      checkEscLoop calls rest (inIf - 1)
    else if calls.contains t && decide (0 < inIf) then
      .error (.analysisError ("Escaping call " ++ t.text ++ " in condition") t)
    else checkEscLoop calls rest inIf

/-- `check_escaping_calls`: reject any recorded escaping call that sits
inside the parenthesized condition of an `if`, `DEOPT_IF` or `ERROR_IF`. -/
def check_escaping_calls (tokens : List Token) (escapes : EscMap) : Except AErr Unit :=
  checkEscLoop (escapes.map (fun e => e.2.1)) tokens 0

/-- The scanning loop of `find_escaping_api_calls`.  `rest` is the suffix
of `all` starting at position `idx`; the loop breaks when the current
token has no successor. -/
def findEscLoop (all : List Token) : List Token → Nat → EscMap → Except AErr EscMap
  | [], _, acc => .ok acc
  | t :: rest, idx, acc =>
    match rest.head? with
    | none => .ok acc
    | some next =>
      if t.kind = "SWITCH" then
        .error (.analysisError
          "switch statements are not supported due to their complex flow control. Sorry." t)
      else if next.kind ≠ "LPAREN" then findEscLoop all rest (idx + 1) acc
      else if t.kind = "IDENTIFIER" then
        if upperEq t.text then findEscLoop all rest (idx + 1) acc
        else if strStartsWith t.text "sym_" || strStartsWith t.text "optimize_" then
          findEscLoop all rest (idx + 1) acc
        else if strEndsWith t.text "Check" then findEscLoop all rest (idx + 1) acc
        else if strStartsWith t.text "Py_Is" then findEscLoop all rest (idx + 1) acc
        else if strEndsWith t.text "CheckExact" then findEscLoop all rest (idx + 1) acc
        else if NON_ESCAPING_FUNCTIONS.contains t.text then findEscLoop all rest (idx + 1) acc
        else do
          let s ← find_stmt_start all idx
          let e ← find_stmt_end all idx
          findEscLoop all rest (idx + 1) (pyInsert acc s (t, e))
      else if t.kind = "RPAREN" then
        match (if idx = 0 then all.getLast? else all[idx - 1]?) with
        | none => .error .indexError
        | some prev =>
          if strEndsWith prev.text "_t" || prev.text = "*" || prev.text = "int" then
            findEscLoop all rest (idx + 1) acc
          else do
            let s ← find_stmt_start all idx
            let e ← find_stmt_end all idx
            findEscLoop all rest (idx + 1) (pyInsert acc s (t, e))
      else if t.kind ≠ "RBRACKET" then findEscLoop all rest (idx + 1) acc
      else do
        let s ← find_stmt_start all idx
        let e ← find_stmt_end all idx
        findEscLoop all rest (idx + 1) (pyInsert acc s (t, e))

/-- `find_escaping_api_calls` over a body token list (`instr.block.tokens`
in the source): record surviving call sites, then check none sits inside a
condition. -/
def find_escaping_api_calls (tokens : List Token) : Except AErr EscMap := do
  let result ← findEscLoop tokens tokens 0 []
  let _u ← check_escaping_calls tokens result
  .ok result

/-- The set `EXITS` of unconditional-exit identifiers. -/
def EXITS : List String :=
  ["DISPATCH", "GO_TO_INSTRUCTION", "Py_UNREACHABLE", "DISPATCH_INLINED", "DISPATCH_GOTO"]

/-- The scanning loop of `always_exits`: brace-depth tracking over the
whole node token list; at depth at most 1, a return/goto, a recognized
exit identifier, or DEOPT_IF/ERROR_IF with literal condition true/1
terminates control flow. -/
def alwaysExitsLoop : List Token → Int → Except AErr Bool
  | [], _ => .ok false
  | t :: rest, depth =>
    if t.kind = "LBRACE" then alwaysExitsLoop rest (depth + 1)
    else if t.kind = "RBRACE" then alwaysExitsLoop rest (depth - 1)
    else if 1 < depth then alwaysExitsLoop rest depth
    else if t.kind = "GOTO" || t.kind = "RETURN" then .ok true
    else if t.kind = "KEYWORD" then
      if EXITS.contains t.text then .ok true else alwaysExitsLoop rest depth
    else if t.kind = "IDENTIFIER" then
      if EXITS.contains t.text then .ok true
      else if t.text = "DEOPT_IF" || t.text = "ERROR_IF" then
        match rest with
        | _ :: t2 :: rest2 =>
          if t2.text = "true" || t2.text = "1" then .ok true
          else alwaysExitsLoop rest2 depth
        | _ => .error .stopIteration
      else alwaysExitsLoop rest depth
    else alwaysExitsLoop rest depth

/-- `always_exits`: whether the operation unconditionally terminates
control flow. -/
def always_exits (op : InstDef) : Except AErr Bool :=
  alwaysExitsLoop op.tokens 0

/-- `oparg_used`: whether the identifier `oparg` occurs among the whole
node's tokens. -/
def oparg_used (op : InstDef) : Bool :=
  op.tokens.any (fun t => t.kind = "IDENTIFIER" && t.text = "oparg")

/-- `re.fullmatch("tier\\d", s)`: exactly the four letters tier followed by
one digit; on success the digit's value. -/
def tierFullmatch (s : String) : Option Nat :=
  match s.toList with
  | ['t', 'i', 'e', 'r', d] => if d.isDigit then some (d.toNat - 48) else none
  | _ => none

/-- The scanning loop of `tier_variable` over the node's tokens. -/
def tierLoop : List Token → Option Nat
  | [] => none
  | t :: rest =>
    if t.kind = "ANNOTATION" then
      if t.text = "specializing" then some 1
      else
        match tierFullmatch t.text with
        | some n => some n
        | none => tierLoop rest
    else tierLoop rest

/-- `tier_variable`: the tier restriction declared by an annotation token. -/
def tier_variable (op : InstDef) : Option Nat :=
  tierLoop op.tokens

def has_error_with_pop (op : InstDef) : Bool :=
  variable_used op "ERROR_IF" || variable_used op "pop_1_error" ||
    variable_used op "exception_unwind" || variable_used op "resume_with_error"

def has_error_without_pop (op : InstDef) : Bool :=
  variable_used op "ERROR_NO_POP" || variable_used op "pop_1_error" ||
    variable_used op "exception_unwind" || variable_used op "resume_with_error"

/-- The backward scan of `find_assignment_target`: the position of the last
SEMI/LBRACE/RBRACE boundary strictly before `idx`, if any. -/
def lastBoundaryBefore (tokens : List Token) : Nat → Option Nat
  | 0 => none
  | j + 1 =>
    match tokens[j]? with
    | some t =>
      if t.kind = "SEMI" || t.kind = "LBRACE" || t.kind = "RBRACE" then some j
      else lastBoundaryBefore tokens j
    | none => lastBoundaryBefore tokens j

/-- `find_assignment_target`: the tokens forming the left-hand side of an
assignment whose `=` sits at position `idx` of the body. -/
def find_assignment_target (node : InstDef) (idx : Nat) : List Token :=
  match lastBoundaryBefore node.block idx with
  | some j => (node.block.drop (j + 1)).take (idx - (j + 1))
  | none => []

/-- The scanning loop of `find_stores_outputs`. -/
def findStoresLoop (node : InstDef) (outnames innames : List String) :
    List Token → Nat → List Token → Except AErr (List Token)
  | [], _, res => .ok res
  | t :: rest, idx, res => do
    let res1 ←
      if t.kind = "AND" then
        match node.block[idx + 1]? with
        | none => .error .indexError
        | some nm =>
          if outnames.contains nm.text then .ok (res ++ [nm]) else .ok res
      else .ok res
    if t.kind ≠ "EQUALS" then findStoresLoop node outnames innames rest (idx + 1) res1
    else
      match find_assignment_target node idx with
      | [] => .error .assertionError
      | lhs0@(_ :: _) =>
        let lhs := lhs0.dropWhile (fun u => u.kind = "COMMENT")
        match lhs with
        | [nm] =>
          if nm.kind = "IDENTIFIER" then
            if innames.contains nm.text then
              .error (.analysisError ("Cannot assign to input variable " ++ nm.text) nm)
            else if outnames.contains nm.text then
              findStoresLoop node outnames innames rest (idx + 1) (res1 ++ [nm])
            else findStoresLoop node outnames innames rest (idx + 1) res1
          else findStoresLoop node outnames innames rest (idx + 1) res1
        | _ => findStoresLoop node outnames innames rest (idx + 1) res1

/-- `find_stores_outputs`: every direct-assignment (and AND-conjunction)
left-hand token naming a declared output; assigning to an input is an
error. -/
def find_stores_outputs (node : InstDef) : Except AErr (List Token) :=
  findStoresLoop node (node.outputs.map (fun o => o.name))
    (node.inputs.map (fun i => i.name)) node.block 0 []

/-- The backward scan of `in_frame_push` (`n` is one past the highest
position to examine). -/
def inFramePushLoop (tokens : List Token) : Nat → Bool
  | 0 => false
  | j + 1 =>
    match tokens[j]? with
    | some t =>
      if t.kind = "SEMI" || t.kind = "LBRACE" || t.kind = "RBRACE" then false
      else if t.kind = "IDENTIFIER" && t.text = "_PyFrame_PushUnchecked" then true
      else inFramePushLoop tokens j
    | none => inFramePushLoop tokens j

/-- `in_frame_push`: whether position `idx` sits inside a
`_PyFrame_PushUnchecked(...)` call (scans `tokens[: idx - 1]` backwards; at
`idx = 0` Python's negative slice scans all but the last token). -/
def in_frame_push (node : InstDef) (idx : Nat) : Bool :=
  if idx = 0 then inFramePushLoop node.block (node.block.length - 1)
  else inFramePushLoop node.block (idx - 1)

/-- The scanning loop of `analyze_deferred_refs`. -/
def analyzeDeferredLoop (node : InstDef) :
    List Token → Nat → List (Token × Option String) →
    Except AErr (List (Token × Option String))
  | [], _, refs => .ok refs
  | t :: rest, idx, refs =>
    if ¬(t.kind = "IDENTIFIER" ∧ t.text = "PyStackRef_FromPyObjectNew") then
      analyzeDeferredLoop node rest (idx + 1) refs
    else if idx = 0 ∨ ¬((node.block[idx - 1]?).map Token.kind = some "EQUALS") then
      if in_frame_push node idx then
        analyzeDeferredLoop node rest (idx + 1) (pyInsert refs t none)
      else .error (.analysisError "Expected = before PyStackRef_FromPyObjectNew" t)
    else
      match find_assignment_target node (idx - 1) with
      | [] =>
        .error (.analysisError "PyStackRef_FromPyObjectNew() must be assigned to an output" t)
      | lhs0 :: lhsRest =>
        if lhs0.kind = "TIMES" ∨
            lhsRest.any (fun u => u.kind = "ARROW" || u.kind = "LBRACKET") then
          analyzeDeferredLoop node rest (idx + 1) (pyInsert refs t none)
        else if ¬(lhsRest = [] ∧ lhs0.kind = "IDENTIFIER") then
          .error (.analysisError "PyStackRef_FromPyObjectNew() must be assigned to an output" t)
        else if node.inputs.any (fun v => v.name = lhs0.text) ||
            node.outputs.any (fun v => v.name = lhs0.text) then
          analyzeDeferredLoop node rest (idx + 1) (pyInsert refs t (some lhs0.text))
        else
          .error (.analysisError
            ("PyStackRef_FromPyObjectNew() must be assigned to an input or output, not "
              ++ lhs0.text) t)

/-- `analyze_deferred_refs`: classify every `PyStackRef_FromPyObjectNew`
call site as tracked-to-a-variable, untracked, or an error. -/
def analyze_deferred_refs (node : InstDef) :
    Except AErr (List (Token × Option String)) :=
  analyzeDeferredLoop node node.block 0 []

/-- `analyze_caches`: the cache entries among the declared inputs; an
`unused` cache entry inside an op is rejected. -/
def analyze_caches (inputs : List InputEffect) : Except AErr (List CacheEntry) :=
  let caches := inputs.filterMap (fun i =>
    match i with
    | .cache c => some c
    | .stack _ => none)
  match caches.find? (fun c => c.name = "unused") with
  | some c =>
    .error (.analysisError "Unused cache entry in op. Move to enclosing macro." c.first_token)
  | none => .ok (caches.map (fun c => { name := c.name, size := c.size }))

/-- Substring test over character lists. -/
def listIsInfix (needle : List Char) : List Char → Bool
  | [] => needle.isEmpty
  | c :: rest => needle.isPrefixOf (c :: rest) || listIsInfix needle rest

/-- Python `needle in hay` on strings. -/
def strContains (hay needle : String) : Bool :=
  listIsInfix needle.toList hay.toList

/-- `effect_depends_on_oparg_1`: some declared stack effect has a condition
matching the oparg-low-bit pattern. -/
def effect_depends_on_oparg_1 (op : InstDef) : Bool :=
  op.inputs.any (fun i =>
    match i with
    | .stack s => !(s.cond = "") && opargAnd1Match s.cond
    | .cache _ => false) ||
  op.outputs.any (fun s => !(s.cond = "") && opargAnd1Match s.cond)

/-- `compute_properties`: the full Properties record for one operation. -/
def compute_properties (op : InstDef) : Except AErr Properties := do
  let escaping_calls ← find_escaping_api_calls op.block
  let has_free := variable_used op "PyCell_New" || variable_used op "PyCell_GetRef" ||
    variable_used op "PyCell_SetTakeRef" || variable_used op "PyCell_SwapTakeRef"
  let deopts_if := variable_used op "DEOPT_IF"
  let exits_if := variable_used op "EXIT_IF"
  let _c ←
    if deopts_if && exits_if then
      match op.tokens.head? with
      | none => (.error .indexError : Except AErr Unit)
      | some tkn => .error (.analysisError "Op cannot contain both EXIT_IF and DEOPT_IF" tkn)
    else .ok ()
  let ae ← always_exits op
  .ok {
    escaping_calls := escaping_calls,
    error_with_pop := has_error_with_pop op,
    error_without_pop := has_error_without_pop op,
    deopts := deopts_if,
    side_exit := exits_if,
    oparg := oparg_used op,
    jumps := variable_used op "JUMPBY",
    eval_breaker := strContains op.name "CHECK_PERIODIC",
    needs_this := variable_used op "this_instr",
    always_exits := ae,
    stores_sp := variable_used op "SYNC_SP",
    uses_co_consts := variable_used op "FRAME_CO_CONSTS",
    uses_co_names := variable_used op "FRAME_CO_NAMES",
    uses_locals := (variable_used op "GETLOCAL" || variable_used op "SETLOCAL") && !has_free,
    has_free := has_free,
    pure := op.annotations.contains "pure",
    tier := tier_variable op,
    oparg_and_1 := false,
    const_oparg := -1,
    needs_prev := variable_used op "prev_instr" }

/-- Render an optional parser context the way Python string-formats it. -/
def contextStr : Option String → String
  | none => "None"
  | some s => s

/-- `override_error`: the duplicate-definition error naming both source
contexts. -/
def override_error (name : String) (context prev_context : Option String)
    (token : Token) : AErr :=
  .analysisError ("Duplicate definition of " ++ name ++ " @ " ++ contextStr context ++
    " previous definition @ " ++ contextStr prev_context) token

/-- The variant uops synthesized by the split branch of `make_uop` for the
oparg bits 0 and 1. -/
def makeSplitVariant (name : String) (op : InstDef) (inputs : List InputEffect)
    (bit : String) : Except AErr Uop := do
  let props0 ← compute_properties op
  let props :=
    if props0.oparg then
      { props0 with oparg := op.block.any (fun t => t.text = "oparg") }
    else props0
  let stack ← analyze_stack (.inst op) (some bit)
  let caches ← analyze_caches inputs
  let drefs ← analyze_deferred_refs op
  let stores ← find_stores_outputs op
  .ok {
    name := name ++ "_" ++ bit, context := op.context, annotations := op.annotations,
    stack := stack, caches := caches, deferred_refs := drefs, output_stores := stores,
    body := op.block, properties := props, implicitly_created := false,
    replicated := 0, replicates := some name, instruction_size := none }

/-- The variant uop synthesized by the replicate branch of `make_uop` for
one constant oparg value. -/
def makeReplicaVariant (name : String) (op : InstDef) (inputs : List InputEffect)
    (oparg : Nat) : Except AErr Uop := do
  let props0 ← compute_properties op
  let props := { props0 with oparg := false, const_oparg := Int.ofNat oparg }
  let stack ← analyze_stack (.inst op) none
  let caches ← analyze_caches inputs
  let drefs ← analyze_deferred_refs op
  let stores ← find_stores_outputs op
  .ok {
    name := name ++ "_" ++ toString oparg, context := op.context,
    annotations := op.annotations, stack := stack, caches := caches,
    deferred_refs := drefs, output_stores := stores, body := op.block,
    properties := props, implicitly_created := false, replicated := 0,
    replicates := some name, instruction_size := none }

/-- `make_uop`: build one Uop from an operation node, registering split or
replicated variants into the uop registry as a side effect; returns the
main Uop and the updated registry. -/
def make_uop (name : String) (op : InstDef) (inputs : List InputEffect)
    (uops : List (String × Uop)) : Except AErr (Uop × List (String × Uop)) := do
  let stack ← analyze_stack (.inst op) none
  let caches ← analyze_caches inputs
  let drefs ← analyze_deferred_refs op
  let stores ← find_stores_outputs op
  let props ← compute_properties op
  let result0 : Uop := {
    name := name, context := op.context, annotations := op.annotations,
    stack := stack, caches := caches, deferred_refs := drefs, output_stores := stores,
    body := op.block, properties := props, implicitly_created := false,
    replicated := 0, replicates := none, instruction_size := none }
  let (result1, uops1) ←
    if effect_depends_on_oparg_1 op && op.annotations.contains "split" then do
      let result := { result0 with properties := { props with oparg_and_1 := true } }
      let rep0 ← makeSplitVariant name op inputs "0"
      let rep1 ← makeSplitVariant name op inputs "1"
      let uopsA := pyInsert uops (name ++ "_0") rep0
      let uopsB := pyInsert uopsA (name ++ "_1") rep1
      (.ok (result, uopsB) : Except AErr (Uop × List (String × Uop)))
    else .ok (result0, uops)
  match op.annotations.find? (fun a => strStartsWith a "replicate") with
  | none => .ok (result1, uops1)
  | some anno =>
    match ((anno.drop 10).dropRight 1).toNat? with
    | none => .error .valueError
    | some n => do
      let result2 := { result1 with replicated := n }
      let uops2 ← (List.range n).foldlM (fun acc oparg => do
        let rep ← makeReplicaVariant name op inputs oparg
        (.ok (pyInsert acc (name ++ "_" ++ toString oparg) rep) :
          Except AErr (List (String × Uop)))) uops1
      .ok (result2, uops2)

/-- `add_op`: register an op-kind definition, enforcing the override rule
on duplicate names. -/
def add_op (op : InstDef) (uops : List (String × Uop)) :
    Except AErr (List (String × Uop)) := do
  let _a ← (if op.kind = "op" then .ok () else (.error .assertionError : Except AErr Unit))
  let _b ←
    match pyLookup uops op.name with
    | some prev =>
      if op.annotations.contains "override" then (.ok () : Except AErr Unit)
      else
        match op.tokens.head? with
        | none => .error .indexError
        | some t => .error (override_error op.name op.context prev.context t)
    | none => .ok ()
  let (u, uops1) ← make_uop op.name op op.inputs uops
  .ok (pyInsert uops1 op.name u)

/-- `add_instruction`: register an Instruction under a name. -/
def add_instruction (where' : Token) (name : String) (parts : List Part)
    (instructions : List (String × Instruction)) : List (String × Instruction) :=
  pyInsert instructions name
    { where' := where', name := name, parts := parts, is_target := false,
      family := none, opcode := -1 }

/-- The input split of `desugar_inst`: unused cache entries become Skip
parts on the Instruction; the first remaining input reserves the slot for
the synthesized uop. -/
def desugarSplit (inputs : List InputEffect) : List InputEffect × List Part × Int :=
  inputs.foldl (fun st input =>
    let (op_inputs, parts, uop_index) := st
    match input with
    | .cache c =>
      if c.name = "unused" then (op_inputs, parts ++ [.skip { size := c.size }], uop_index)
      else
        if uop_index < 0 then
          (op_inputs ++ [input], parts ++ [.skip { size := 0 }], Int.ofNat parts.length)
        else (op_inputs ++ [input], parts, uop_index)
    | .stack _ =>
      if uop_index < 0 then
        (op_inputs ++ [input], parts ++ [.skip { size := 0 }], Int.ofNat parts.length)
      else (op_inputs ++ [input], parts, uop_index)) ([], [], -1)

/-- `desugar_inst`: turn an inst-kind definition into an implicit
single-uop Instruction, registering the synthesized uop under the
instruction's own name with no duplicate check. -/
def desugar_inst (inst : InstDef) (instructions : List (String × Instruction))
    (uops : List (String × Uop)) :
    Except AErr (List (String × Instruction) × List (String × Uop)) := do
  let _a ← (if inst.kind = "inst" then .ok () else (.error .assertionError : Except AErr Unit))
  let (op_inputs, parts, uop_index) := desugarSplit inst.inputs
  let (uop0, uops1) ← make_uop ("_" ++ inst.name) inst op_inputs uops
  let uop := { uop0 with implicitly_created := true }
  let uops2 := pyInsert uops1 inst.name uop
  let parts2 :=
    if uop_index < 0 then parts ++ [.uop uop]
    else parts.set uop_index.toNat (.uop uop)
  .ok (add_instruction inst.first_token inst.name parts2 instructions, uops2)

/-- `parser.Family`: a family declaration node. -/
structure FamilyNode where
  name : String
  size : String
  members : List String
deriving DecidableEq, Repr

/-- `add_family`: bind a family to its (already registered) members: every
member's family back-reference is set, and the instruction registered
under the family's own name is marked an explicit jump target. -/
def add_family (pfamily : FamilyNode) (instructions : List (String × Instruction))
    (families : List (String × Family)) :
    Except AErr (List (String × Instruction) × List (String × Family)) := do
  let _a ← (if pfamily.members.all (fun m => (pyLookup instructions m).isSome) then
    (.ok () : Except AErr Unit) else .error .keyError)
  let family : Family :=
    { name := pfamily.name, size := pfamily.size, members := pfamily.members }
  let instructions1 := pfamily.members.foldl (fun acc m =>
    match pyLookup acc m with
    | some i => pyInsert acc m { i with family := some pfamily.name }
    | none => acc) instructions
  match pyLookup instructions1 pfamily.name with
  | none => .error .keyError
  | some head =>
    .ok (pyInsert instructions1 pfamily.name { head with is_target := true },
      pyInsert families pfamily.name family)

/-- Insertion into a sorted list (Python `sorted`, lexicographic on
strings). -/
def insertSorted (x : String) : List String → List String
  | [] => [x]
  | y :: rest => if x ≤ y then x :: y :: rest else y :: insertSorted x rest

/-- Python `sorted` on a list of strings. -/
def pySorted (l : List String) : List String :=
  l.foldr insertSorted []

/-- The while-loop of `assign_opcodes.add_instruction`: advance from `n` to
the first value not yet taken, with enough fuel to pass every taken
value. -/
def firstFree (vals : List Nat) : Nat → Nat → Nat
  | n, 0 => n
  | n, fuel + 1 => if vals.contains n then firstFree vals (n + 1) fuel else n

/-- The first opcode value not already taken, at or after `n`. -/
def firstFreeFrom (vals : List Nat) (n : Nat) : Nat :=
  firstFree vals n ((vals.foldl max 0) + 2)

/-- One step of opcode numbering (`add_instruction` inside
`assign_opcodes`): a pre-defined name is skipped; otherwise the cursor
advances past taken values and the name receives the next free value. -/
def addInstrOp (st : List (String × Nat) × Nat) (name : String) :
    List (String × Nat) × Nat :=
  if (pyLookup st.1 name).isSome then st
  else
    let v := firstFreeFrom (pyValues st.1) st.2
    (pyInsert st.1 name v, v + 1)

/-- The pre-seeded fixed historical opcode slots. -/
def instmapInit : List (String × Nat) :=
  [("CACHE", 0), ("RESERVED", 17), ("RESUME", 149),
   ("BINARY_OP_INPLACE_ADD_UNICODE", 3), ("INSTRUMENTED_LINE", 254),
   ("ENTER_EXECUTOR", 255)]

/-- The instrumented instruction names, in registry order. -/
def instrumentedOf (instructions : List (String × Instruction)) : List String :=
  (pyKeys instructions).filter (fun name => strStartsWith name "INSTRUMENTED")

/-- Set-insertion of one member name into the specialized accumulator
(Python set semantics kept in first-seen order). -/
def specAdd (acc : List String) (m : String) : List String :=
  if acc.contains m then acc else acc ++ [m]

/-- The set of specialized names (members of some family), as a
duplicate-free list. -/
def specializedOf (families : List (String × Family)) : List String :=
  (pyValues families).foldl (fun acc fam => fam.members.foldl specAdd acc) []

/-- One step of the no-oparg / has-oparg partition of `assign_opcodes`. -/
def partitionStep (specialized instrumented : List String)
    (p : List String × List String) (inst : Instruction) : List String × List String :=
  if specialized.contains inst.name then p
  else if instrumented.contains inst.name then p
  else if inst.properties.oparg then (p.1, p.2 ++ [inst.name])
  else (p.1 ++ [inst.name], p.2)

/-- The no-oparg / has-oparg partition of the non-specialized,
non-instrumented instructions, in registry order. -/
def opargPartition (instructions : List (String × Instruction))
    (specialized instrumented : List String) : List String × List String :=
  (pyValues instructions).foldl (partitionStep specialized instrumented) ([], [])

/-- The per-instruction opcode write-back inside `assign_opcodes`
(`instruction.opcode = instmap[name]`, a KeyError if the name was never
numbered). -/
def opcodeWriteback (instmap : List (String × Nat)) (e : String × Instruction) :
    Except AErr (String × Instruction) :=
  match pyLookup instmap e.1 with
  | none => .error .keyError
  | some v => .ok (e.1, { e.2 with opcode := Int.ofNat v })

/-- One step of the pseudo-opcode loop of `assign_opcodes`: the sorted
pseudo name receives the running opcode (from 256 up) in the opmap and in
its registry entry. -/
def pseudoStep (st : (List (String × Nat) × List (String × PseudoInstruction)) × Nat)
    (nm : String) : (List (String × Nat) × List (String × PseudoInstruction)) × Nat :=
  let ps2 :=
    match pyLookup st.1.2 nm with
    | some p => pyInsert st.1.2 nm { p with opcode := Int.ofNat st.2 }
    | none => st.1.2
  ((pyInsert st.1.1 nm st.2, ps2), st.2 + 1)

/-- `assign_opcodes`: deterministic opcode numbering.  Returns the opmap,
`have_arg` and `min_instrumented` together with the registries whose
`opcode` fields the source mutates in place.  `min_instrumented` is
Python's `254 - (len(instrumented) - 1)`, which equals
`255 - len(instrumented)` for a non-empty list and 255 for an empty one. -/
def assign_opcodes (instructions : List (String × Instruction))
    (families : List (String × Family))
    (pseudos : List (String × PseudoInstruction)) :
    Except AErr (List (String × Nat) × Nat × Nat ×
      List (String × Instruction) × List (String × PseudoInstruction)) := do
  let instrumented := instrumentedOf instructions
  let specialized := specializedOf families
  let na_ha := opargPartition instructions specialized instrumented
  let min_internal := 150
  let min_instrumented := 255 - instrumented.length
  let _a ← (if min_internal + specialized.length < min_instrumented then
    (.ok () : Except AErr Unit) else .error .assertionError)
  let st1 := (pySorted na_ha.1).foldl addInstrOp (instmapInit, 1)
  let st2 := (pySorted na_ha.2).foldl addInstrOp st1
  let st3 := (pySorted specialized).foldl addInstrOp (st2.1, min_internal)
  let st4 := instrumented.foldl addInstrOp (st3.1, min_instrumented)
  let instmap := st4.1
  let instructions1 ← instructions.mapM (opcodeWriteback instmap)
  let sortedPseudos := pySorted (pyKeys pseudos)
  let finalSt := sortedPseudos.foldl pseudoStep ((instmap, pseudos), 256)
  .ok (finalSt.1.1, na_ha.1.length, min_instrumented, instructions1, finalSt.1.2)

/-- The Properties of an empty-bodied, unannotated operation (all flags
false, including purity, which requires an explicit annotation). -/
def noOpProps : Properties := { SKIP_PROPERTIES with pure := false }

/-- First definition of the duplicated op name X (context c1). -/
def c6_op1 : InstDef :=
  { kind := "op", name := "X", annotations := [], inputs := [], outputs := [],
    block := [tk 0 "LBRACE" "", tk 1 "RBRACE" ""],
    tokens := [tk 2 "IDENTIFIER" "X", tk 0 "LBRACE" "", tk 1 "RBRACE" ""],
    context := some "c1", first_token := tk 2 "IDENTIFIER" "X" }

/-- Second definition of the duplicated op name X (context c2), carrying
the override annotation. -/
def c6_op2 : InstDef :=
  { kind := "op", name := "X", annotations := ["override"], inputs := [], outputs := [],
    block := [tk 10 "LBRACE" "", tk 11 "RBRACE" ""],
    tokens := [tk 12 "IDENTIFIER" "X", tk 10 "LBRACE" "", tk 11 "RBRACE" ""],
    context := some "c2", first_token := tk 12 "IDENTIFIER" "X" }

/-- A second definition of X without the override annotation. -/
def c6_op2plain : InstDef := { c6_op2 with annotations := [] }

/-- The Uop built from `c6_op1`. -/
def c6_u1 : Uop :=
  { name := "X", context := some "c1", annotations := [],
    stack := { inputs := [], outputs := [] }, caches := [], deferred_refs := [],
    output_stores := [], body := [tk 0 "LBRACE" "", tk 1 "RBRACE" ""],
    properties := noOpProps, implicitly_created := false, replicated := 0,
    replicates := none, instruction_size := none }

/-- The Uop built from `c6_op2`. -/
def c6_u2 : Uop :=
  { name := "X", context := some "c2", annotations := ["override"],
    stack := { inputs := [], outputs := [] }, caches := [], deferred_refs := [],
    output_stores := [], body := [tk 10 "LBRACE" "", tk 11 "RBRACE" ""],
    properties := noOpProps, implicitly_created := false, replicated := 0,
    replicates := none, instruction_size := none }

/-- A bare instruction with no parts, used in the C9 witness registry. -/
def c9_instr (nm : String) : Instruction :=
  { where' := tk 0 "IDENTIFIER" nm, name := nm, parts := [], is_target := false,
    family := none, opcode := -1 }

/-- The C9 witness family node: members A, B and the head F itself. -/
def c9_fam : FamilyNode := { name := "F", size := "2", members := ["A", "B", "F"] }

/-- An inst-kind definition named EXI with an empty body, shadowing an
existing uop registry entry in the C10 witness. -/
def c10_inst : InstDef :=
  { kind := "inst", name := "EXI", annotations := [], inputs := [], outputs := [],
    block := [tk 0 "LBRACE" "", tk 1 "RBRACE" ""],
    tokens := [tk 0 "LBRACE" "", tk 1 "RBRACE" ""],
    context := none, first_token := tk 2 "IDENTIFIER" "EXI" }

/-- The pre-existing uop registered under the name EXI. -/
def c10_old : Uop :=
  { name := "OLD", context := none, annotations := [],
    stack := { inputs := [], outputs := [] }, caches := [], deferred_refs := [],
    output_stores := [], body := [], properties := SKIP_PROPERTIES,
    implicitly_created := false, replicated := 0, replicates := none,
    instruction_size := none }

/-- The uop synthesized by `desugar_inst` for `c10_inst` (registered under
EXI with `implicitly_created` set). -/
def c10_u : Uop :=
  { name := "_EXI", context := none, annotations := [],
    stack := { inputs := [], outputs := [] }, caches := [], deferred_refs := [],
    output_stores := [], body := [tk 0 "LBRACE" "", tk 1 "RBRACE" ""],
    properties := noOpProps, implicitly_created := false, replicated := 0,
    replicates := none, instruction_size := none }

/-- The instruction registry after resolving `c9_fam`. -/
def c9_res_instrs : List (String × Instruction) :=
  [("A", { c9_instr "A" with family := some "F" }),
   ("B", { c9_instr "B" with family := some "F" }),
   ("F", { c9_instr "F" with family := some "F", is_target := true })]

/-- The family registry after resolving `c9_fam`. -/
def c9_res_fams : List (String × Family) :=
  [("F", { name := "F", size := "2", members := ["A", "B", "F"] })]

/-- The stream of free opcode values: the first `k` naturals at or after
`start` that are not in `taken`. -/
def freeValues (taken : List Nat) (start : Nat) : Nat → List Nat
  | 0 => []
  | k + 1 =>
    let v := firstFreeFrom taken start
    v :: freeValues taken (v + 1) k

/-- The cursor position after drawing `k` values from the free stream. -/
def cursorAfter (taken : List Nat) (start : Nat) : Nat → Nat
  | 0 => start
  | k + 1 => cursorAfter taken (firstFreeFrom taken start + 1) k

/-- Modelled from the claim: the numbering policy as C2 states it.  The
fixed slots are pre-seeded; the non-fixed no-oparg instructions are
numbered in sorted name order, then the non-fixed has-oparg instructions
in sorted name order, from a shared cursor starting at 1 that skips any
opcode value already taken; the not-yet-numbered specialized instructions
in sorted name order from the fixed offset 150; the not-yet-numbered
instrumented instructions in registry order from `254 - (count - 1)`;
pseudo-instructions in sorted name order from 256; and the range check
`150 + specialized count < first instrumented opcode` is an assertion.
Returns the opmap, `have_arg` and `min_instrumented`. -/
def specOpmap (instructions : List (String × Instruction))
    (families : List (String × Family))
    (pseudos : List (String × PseudoInstruction)) : List (String × Nat) :=
  let instrumented := instrumentedOf instructions
  let specialized := specializedOf families
  let na_ha := opargPartition instructions specialized instrumented
  let min_instrumented := 255 - instrumented.length
  let ordered1a := (pySorted na_ha.1).filter (fun nm => (pyLookup instmapInit nm).isNone)
  let vals1a := freeValues (pyValues instmapInit) 1 ordered1a.length
  let c1 := cursorAfter (pyValues instmapInit) 1 ordered1a.length
  let m1a := instmapInit ++ ordered1a.zip vals1a
  let ordered1b := (pySorted na_ha.2).filter (fun nm => (pyLookup m1a nm).isNone)
  let vals1b := freeValues (pyValues m1a) c1 ordered1b.length
  let m1 := m1a ++ ordered1b.zip vals1b
  let ordered2 := (pySorted specialized).filter (fun nm => (pyLookup m1 nm).isNone)
  let vals2 := freeValues (pyValues m1) 150 ordered2.length
  let m2 := m1 ++ ordered2.zip vals2
  let ordered3 := instrumented.filter (fun nm => (pyLookup m2 nm).isNone)
  let vals3 := freeValues (pyValues m2) min_instrumented ordered3.length
  let m3 := m2 ++ ordered3.zip vals3
  let pnames := pySorted (pyKeys pseudos)
  m3 ++ pnames.zip (List.range' 256 pnames.length)

/-- Modelled from the claim: the outcome of `assign_opcodes` as C2 words
it (the opmap together with `have_arg` and `min_instrumented`), with the
collision check an assertion. -/
def assign_opcodes_spec (instructions : List (String × Instruction))
    (families : List (String × Family))
    (pseudos : List (String × PseudoInstruction)) :
    Except AErr (List (String × Nat) × Nat × Nat) :=
  if 150 + (specializedOf families).length < 255 - (instrumentedOf instructions).length then
    .ok (specOpmap instructions families pseudos,
      (opargPartition instructions (specializedOf families)
        (instrumentedOf instructions)).1.length,
      255 - (instrumentedOf instructions).length)
  else .error .assertionError

/-- A minimal concrete instruction for exercising the opcode-numbering
refinement on a closed registry. -/
def c2w_instr : Instruction :=
  { where' := tk 0 "IDENTIFIER" "MYOP", name := "MYOP", parts := [],
    is_target := false, family := none, opcode := -1 }

/-- C8: every instruction's total size is 1 (the opcode byte) plus the sum
of its parts' sizes; a Skip of declared size n has size n; a Flush has
size 0; and both Skip and Flush carry the fixed no-op Properties value,
whose flags are all false and whose purity is true. -/
theorem c8_part_sizes :
    (∀ i : Instruction, i.size = 1 + (i.parts.map Part.size).sum) ∧
    (∀ n : Nat, (Skip.mk n).size = n) ∧
    (∀ f : Flush, f.size = 0) ∧
    (∀ s : Skip, s.properties = SKIP_PROPERTIES) ∧
    (∀ f : Flush, f.properties = SKIP_PROPERTIES) ∧
    SKIP_PROPERTIES.error_with_pop = false ∧
    SKIP_PROPERTIES.error_without_pop = false ∧
    SKIP_PROPERTIES.deopts = false ∧
    SKIP_PROPERTIES.oparg = false ∧
    SKIP_PROPERTIES.jumps = false ∧
    SKIP_PROPERTIES.eval_breaker = false ∧
    SKIP_PROPERTIES.needs_this = false ∧
    SKIP_PROPERTIES.always_exits = false ∧
    SKIP_PROPERTIES.stores_sp = false ∧
    SKIP_PROPERTIES.uses_co_consts = false ∧
    SKIP_PROPERTIES.uses_co_names = false ∧
    SKIP_PROPERTIES.uses_locals = false ∧
    SKIP_PROPERTIES.has_free = false ∧
    SKIP_PROPERTIES.side_exit = false ∧
    SKIP_PROPERTIES.oparg_and_1 = false ∧
    SKIP_PROPERTIES.needs_prev = false ∧
    SKIP_PROPERTIES.pure = true ∧
    SKIP_PROPERTIES.escaping_calls = [] := by
  exact ⟨fun i => rfl, fun n => rfl, fun f => rfl, fun s => rfl, fun f => rfl,
    rfl, rfl, rfl, rfl, rfl, rfl, rfl, rfl, rfl, rfl, rfl, rfl, rfl, rfl, rfl,
    rfl, rfl, rfl⟩

theorem peekGranted_nil_left (outs : List StackItem) (j : Nat) :
    ¬peekGranted [] outs j := by
  simp [peekGranted]

theorem peekGranted_nil_right (ins : List StackItem) (j : Nat) :
    ¬peekGranted ins [] j := by
  simp [peekGranted]

theorem peekGranted_zero_cons (i o : StackItem) (ins outs : List StackItem) :
    peekGranted (i :: ins) (o :: outs) 0 ↔ i.name = o.name := by
  simp [peekGranted]

theorem peekGranted_succ_cons (i o : StackItem) (ins outs : List StackItem) (j : Nat) :
    peekGranted (i :: ins) (o :: outs) (j+1) ↔
      (i.name = o.name ∧ peekGranted ins outs j) := by
  unfold peekGranted
  simp only [List.take_succ_cons, List.map_cons, List.cons.injEq, List.length_cons,
    Nat.succ_lt_succ_iff]
  tauto

theorem stackWalk_ok_spec (names : List (String × Token)) :
    ∀ (outs ins : List StackItem) (m : Bool) (r1 r2 : List StackItem),
      stackWalk names ins outs m = .ok (r1, r2) →
      (∀ j : Nat, r1[j]? = (ins[j]?).map (fun i =>
        if m = false ∧ peekGranted ins outs j then { i with peek := true } else i)) ∧
      (∀ j : Nat, r2[j]? = (outs[j]?).map (fun o =>
        if m = false ∧ peekGranted ins outs j then { o with peek := true } else o)) := by
  intro outs
  induction outs with
  | nil =>
    intro ins m r1 r2 h
    rw [stackWalk] at h
    simp only [Except.ok.injEq, Prod.mk.injEq] at h
    obtain ⟨h1, h2⟩ := h
    subst h1; subst h2
    constructor
    · intro j
      simp [peekGranted_nil_right]
    · intro j
      simp
  | cons o outs ih =>
    intro ins m r1 r2 h
    cases ins with
    | nil =>
      cases hl : pyLookup names o.name with
      | some t =>
        rw [stackWalk, hl] at h
        simp at h
      | none =>
        rw [stackWalk, hl] at h
        cases hr : stackWalk names [] outs m with
        | error e =>
          rw [hr] at h
          simp [Bind.bind, Except.bind] at h
        | ok ab =>
          obtain ⟨a, b⟩ := ab
          rw [hr] at h
          simp only [Bind.bind, Except.bind, Except.ok.injEq, Prod.mk.injEq] at h
          obtain ⟨h1, h2⟩ := h
          subst h1; subst h2
          obtain ⟨ih1, ih2⟩ := ih [] m a b hr
          constructor
          · intro j
            rw [ih1 j]
            simp [peekGranted_nil_left]
          · intro j
            cases j with
            | zero =>
              simp [peekGranted_nil_left]
            | succ j =>
              simp only [List.getElem?_cons_succ]
              rw [ih2 j]
              simp [peekGranted_nil_left]
    | cons i ins =>
      by_cases hn : i.name = o.name
      · cases m with
        | true =>
          rw [stackWalk, if_pos hn] at h
          simp only [eq_self_iff_true, if_true] at h
          cases hr : stackWalk names ins outs true with
          | error e =>
            rw [hr] at h
            simp [Bind.bind, Except.bind] at h
          | ok ab =>
            obtain ⟨a, b⟩ := ab
            rw [hr] at h
            simp only [Bind.bind, Except.bind, Except.ok.injEq, Prod.mk.injEq] at h
            obtain ⟨h1, h2⟩ := h
            subst h1; subst h2
            obtain ⟨ih1, ih2⟩ := ih ins true a b hr
            constructor
            · intro j
              cases j with
              | zero => simp
              | succ j =>
                simp only [List.getElem?_cons_succ]
                rw [ih1 j]
                simp
            · intro j
              cases j with
              | zero => simp
              | succ j =>
                simp only [List.getElem?_cons_succ]
                rw [ih2 j]
                simp
        | false =>
          rw [stackWalk, if_pos hn] at h
          simp only [Bool.false_eq_true, if_false] at h
          cases hr : stackWalk names ins outs false with
          | error e =>
            rw [hr] at h
            simp [Bind.bind, Except.bind] at h
          | ok ab =>
            obtain ⟨a, b⟩ := ab
            rw [hr] at h
            simp only [Bind.bind, Except.bind, Except.ok.injEq, Prod.mk.injEq] at h
            obtain ⟨h1, h2⟩ := h
            subst h1; subst h2
            obtain ⟨ih1, ih2⟩ := ih ins false a b hr
            constructor
            · intro j
              cases j with
              | zero =>
                have hg : peekGranted (i :: ins) (o :: outs) 0 := by
                  rw [peekGranted_zero_cons]; exact hn
                simp [hg]
              | succ j =>
                simp only [List.getElem?_cons_succ]
                rw [ih1 j]
                have hg := peekGranted_succ_cons i o ins outs j
                by_cases hpg : peekGranted ins outs j
                · have : peekGranted (i :: ins) (o :: outs) (j+1) := hg.mpr ⟨hn, hpg⟩
                  simp [hpg, this]
                · have : ¬peekGranted (i :: ins) (o :: outs) (j+1) := by
                    intro hc; exact hpg (hg.mp hc).2
                  simp [hpg, this]
            · intro j
              cases j with
              | zero =>
                have hg : peekGranted (i :: ins) (o :: outs) 0 := by
                  rw [peekGranted_zero_cons]; exact hn
                simp [hg]
              | succ j =>
                simp only [List.getElem?_cons_succ]
                rw [ih2 j]
                have hg := peekGranted_succ_cons i o ins outs j
                by_cases hpg : peekGranted ins outs j
                · have : peekGranted (i :: ins) (o :: outs) (j+1) := hg.mpr ⟨hn, hpg⟩
                  simp [hpg, this]
                · have : ¬peekGranted (i :: ins) (o :: outs) (j+1) := by
                    intro hc; exact hpg (hg.mp hc).2
                  simp [hpg, this]
      · cases hl : pyLookup names o.name with
        | some t =>
          rw [stackWalk, if_neg hn, hl] at h
          simp at h
        | none =>
          rw [stackWalk, if_neg hn, hl] at h
          cases hr : stackWalk names ins outs true with
          | error e =>
            rw [hr] at h
            simp [Bind.bind, Except.bind] at h
          | ok ab =>
            obtain ⟨a, b⟩ := ab
            rw [hr] at h
            simp only [Bind.bind, Except.bind, Except.ok.injEq, Prod.mk.injEq] at h
            obtain ⟨h1, h2⟩ := h
            subst h1; subst h2
            obtain ⟨ih1, ih2⟩ := ih ins true a b hr
            constructor
            · intro j
              cases j with
              | zero =>
                have : ¬peekGranted (i :: ins) (o :: outs) 0 := by
                  rw [peekGranted_zero_cons]; exact hn
                simp [this]
              | succ j =>
                simp only [List.getElem?_cons_succ]
                rw [ih1 j]
                have : ¬peekGranted (i :: ins) (o :: outs) (j+1) := by
                  intro hc; exact hn ((peekGranted_succ_cons i o ins outs j).mp hc).1
                simp [this]
            · intro j
              cases j with
              | zero =>
                have : ¬peekGranted (i :: ins) (o :: outs) 0 := by
                  rw [peekGranted_zero_cons]; exact hn
                simp [this]
              | succ j =>
                simp only [List.getElem?_cons_succ]
                rw [ih2 j]
                have : ¬peekGranted (i :: ins) (o :: outs) (j+1) := by
                  intro hc; exact hn ((peekGranted_succ_cons i o ins outs j).mp hc).1
                simp [this]

theorem stackWalk_reuse_error (names : List (String × Token)) :
    ∀ (outs ins : List StackItem) (m : Bool),
      (∃ (j : Nat) (o0 : StackItem), outs[j]? = some o0 ∧
        (pyLookup names o0.name).isSome = true ∧
        (ins[j]? = none ∨ ∃ i0, ins[j]? = some i0 ∧ ¬i0.name = o0.name)) →
      ∃ nm t, pyLookup names nm = some t ∧ nm ∈ outs.map StackItem.name ∧
        stackWalk names ins outs m = .error (.analysisError (reuse_error_message nm) t) := by
  intro outs
  induction outs with
  | nil =>
    rintro ins m ⟨j, o0, hj, -, -⟩
    simp at hj
  | cons o outs ih =>
    rintro ins m ⟨j, o0, hj, hl, hd⟩
    cases ins with
    | nil =>
      cases hlo : pyLookup names o.name with
      | some t =>
        refine ⟨o.name, t, hlo, by simp, ?_⟩
        rw [stackWalk, hlo]
      | none =>
        cases j with
        | zero =>
          simp only [List.getElem?_cons_zero, Option.some.injEq] at hj
          rw [← hj, hlo] at hl
          simp at hl
        | succ j =>
          simp only [List.getElem?_cons_succ] at hj
          obtain ⟨nm, t, h1, h2, h3⟩ :=
            ih [] m ⟨j, o0, hj, hl, Or.inl (by simp)⟩
          refine ⟨nm, t, h1, by simp [h2], ?_⟩
          rw [stackWalk, hlo, h3]
          rfl
    | cons i ins =>
      by_cases hn : i.name = o.name
      · cases j with
        | zero =>
          exfalso
          simp only [List.getElem?_cons_zero, Option.some.injEq] at hj
          rcases hd with hd | ⟨i0, hi0, hne⟩
          · simp at hd
          · simp only [List.getElem?_cons_zero, Option.some.injEq] at hi0
            rw [← hi0, ← hj] at hne
            exact hne hn
        | succ j =>
          simp only [List.getElem?_cons_succ] at hj
          have hd' : ins[j]? = none ∨ ∃ i0, ins[j]? = some i0 ∧ ¬i0.name = o0.name := by
            rcases hd with hd | ⟨i0, hi0, hne⟩
            · exact Or.inl (by simpa using hd)
            · exact Or.inr ⟨i0, by simpa using hi0, hne⟩
          obtain ⟨nm, t, h1, h2, h3⟩ := ih ins m ⟨j, o0, hj, hl, hd'⟩
          refine ⟨nm, t, h1, by simp [h2], ?_⟩
          rw [stackWalk, if_pos hn]
          cases m with
          | true =>
            simp only [eq_self_iff_true, if_true]
            rw [h3]
            rfl
          | false =>
            simp only [Bool.false_eq_true, if_false]
            rw [h3]
            rfl
      · cases hlo : pyLookup names o.name with
        | some t =>
          refine ⟨o.name, t, hlo, by simp, ?_⟩
          rw [stackWalk, if_neg hn, hlo]
        | none =>
          cases j with
          | zero =>
            simp only [List.getElem?_cons_zero, Option.some.injEq] at hj
            rw [← hj, hlo] at hl
            simp at hl
          | succ j =>
            simp only [List.getElem?_cons_succ] at hj
            have hd' : ins[j]? = none ∨ ∃ i0, ins[j]? = some i0 ∧ ¬i0.name = o0.name := by
              rcases hd with hd | ⟨i0, hi0, hne⟩
              · exact Or.inl (by simpa using hd)
              · exact Or.inr ⟨i0, by simpa using hi0, hne⟩
            obtain ⟨nm, t, h1, h2, h3⟩ := ih ins true ⟨j, o0, hj, hl, hd'⟩
            refine ⟨nm, t, h1, by simp [h2], ?_⟩
            rw [stackWalk, if_neg hn, hlo, h3]
            rfl

theorem stack_inputs_fields (op : InstOrPseudo) (r : Option String) :
    ∀ x ∈ stack_inputs op r, x.peek = false ∧ x.used = false := by
  intro x hx
  rw [stack_inputs, List.mem_filterMap] at hx
  obtain ⟨a, -, ha⟩ := hx
  cases a with
  | stack s =>
    simp only [Option.some.injEq] at ha
    rw [← ha]
    exact ⟨rfl, rfl⟩
  | cache c => simp at ha

theorem stack_outputs_fields (op : InstOrPseudo) (r : Option String) :
    ∀ x ∈ stack_outputs op r, x.peek = false ∧ x.used = false := by
  intro x hx
  rw [stack_outputs, List.mem_map] at hx
  obtain ⟨a, -, ha⟩ := hx
  rw [← ha]
  exact ⟨rfl, rfl⟩

theorem setUsed_name (c : Bool) (x : StackItem) :
    (if c = true then { x with used := true } else x).name = x.name := by
  cases c <;> simp

theorem setUsed_peek (c : Bool) (x : StackItem) :
    (if c = true then { x with used := true } else x).peek = x.peek := by
  cases c <;> simp

theorem setUsed_used (c : Bool) (x : StackItem) (hx : x.used = false) :
    (if c = true then { x with used := true } else x).used = c := by
  cases c <;> simp [hx]

theorem setPeek_name (c : Prop) [Decidable c] (x : StackItem) :
    (if c then { x with peek := true } else x).name = x.name := by
  by_cases h : c <;> simp [h]

theorem setPeek_used (c : Prop) [Decidable c] (x : StackItem) :
    (if c then { x with peek := true } else x).used = x.used := by
  by_cases h : c <;> simp [h]

theorem setPeek_peek (c : Prop) [Decidable c] (x : StackItem) (hx : x.peek = false) :
    ((if c then { x with peek := true } else x).peek = true ↔ c) := by
  by_cases h : c <;> simp [h, hx]

theorem stackWalk_ok_spec_false (names : List (String × Token))
    (ins outs a b : List StackItem)
    (h : stackWalk names ins outs false = .ok (a, b)) :
    (∀ j : Nat, a[j]? = (ins[j]?).map (fun i =>
      if peekGranted ins outs j then { i with peek := true } else i)) ∧
    (∀ j : Nat, b[j]? = (outs[j]?).map (fun o =>
      if peekGranted ins outs j then { o with peek := true } else o)) := by
  obtain ⟨w1, w2⟩ := stackWalk_ok_spec names outs ins false a b h
  constructor
  · intro j
    rw [w1 j]
    have hf : (fun (i : StackItem) =>
        if false = false ∧ peekGranted ins outs j then { i with peek := true } else i) =
        (fun (i : StackItem) =>
          if peekGranted ins outs j then { i with peek := true } else i) :=
      funext (fun i => if_congr (and_iff_right rfl) rfl rfl)
    rw [hf]
  · intro j
    rw [w2 j]
    have hf : (fun (o : StackItem) =>
        if false = false ∧ peekGranted ins outs j then { o with peek := true } else o) =
        (fun (o : StackItem) =>
          if peekGranted ins outs j then { o with peek := true } else o) :=
      funext (fun o => if_congr (and_iff_right rfl) rfl rfl)
    rw [hf]

theorem analyze_stack_ok_spec (op : InstOrPseudo) (se : StackEffect)
    (h : analyze_stack op none = .ok se) :
    se.inputs.map StackItem.name = (stack_inputs op none).map StackItem.name ∧
    se.outputs.map StackItem.name = (stack_outputs op none).map StackItem.name ∧
    (∀ (j : Nat) (i0 : StackItem), se.inputs[j]? = some i0 →
      (i0.peek = true ↔ peekGranted (stack_inputs op none) (stack_outputs op none) j)) ∧
    (∀ (j : Nat) (o0 : StackItem), se.outputs[j]? = some o0 →
      (o0.peek = true ↔ peekGranted (stack_inputs op none) (stack_outputs op none) j)) ∧
    (∀ (j : Nat) (i0 : StackItem), se.inputs[j]? = some i0 →
      i0.used = (match op with
        | .inst d => (variable_used d i0.name || variable_used d "DECREF_INPUTS" ||
            (!i0.peek && (se.outputs.map StackItem.name).contains i0.name))
        | .pseudo _ => false)) ∧
    (∀ (j : Nat) (o0 : StackItem), se.outputs[j]? = some o0 →
      o0.used = (match op with
        | .inst d => variable_used d o0.name
        | .pseudo _ => false)) := by
  rw [analyze_stack] at h
  cases hw : stackWalk (input_names_dict op) (stack_inputs op none)
      (stack_outputs op none) false with
  | error e =>
    rw [hw] at h
    simp [Bind.bind, Except.bind] at h
  | ok ab =>
    obtain ⟨a, b⟩ := ab
    rw [hw] at h
    obtain ⟨w1, w2⟩ := stackWalk_ok_spec_false (input_names_dict op)
      (stack_inputs op none) (stack_outputs op none) a b hw
    have hwalkIn : ∀ (j : Nat) (x : StackItem), a[j]? = some x →
        ∃ ic, (stack_inputs op none)[j]? = some ic ∧
          x = (if peekGranted (stack_inputs op none) (stack_outputs op none) j
            then { ic with peek := true } else ic) := by
      intro j x hx
      rw [w1 j] at hx
      cases hic : (stack_inputs op none)[j]? with
      | none => rw [hic] at hx; simp at hx
      | some ic =>
        rw [hic] at hx
        simp only [Option.map_some', Option.some.injEq] at hx
        exact ⟨ic, rfl, hx.symm⟩
    have hwalkOut : ∀ (j : Nat) (x : StackItem), b[j]? = some x →
        ∃ oc, (stack_outputs op none)[j]? = some oc ∧
          x = (if peekGranted (stack_inputs op none) (stack_outputs op none) j
            then { oc with peek := true } else oc) := by
      intro j x hx
      rw [w2 j] at hx
      cases hoc : (stack_outputs op none)[j]? with
      | none => rw [hoc] at hx; simp at hx
      | some oc =>
        rw [hoc] at hx
        simp only [Option.map_some', Option.some.injEq] at hx
        exact ⟨oc, rfl, hx.symm⟩
    have haName : a.map StackItem.name = (stack_inputs op none).map StackItem.name := by
      apply List.ext_getElem?
      intro n
      rw [List.getElem?_map, List.getElem?_map, w1 n]
      cases hic : (stack_inputs op none)[n]? with
      | none => simp
      | some ic =>
        simp only [Option.map_some', Option.some.injEq]
        exact setPeek_name _ ic
    have hbName : b.map StackItem.name = (stack_outputs op none).map StackItem.name := by
      apply List.ext_getElem?
      intro n
      rw [List.getElem?_map, List.getElem?_map, w2 n]
      cases hoc : (stack_outputs op none)[n]? with
      | none => simp
      | some oc =>
        simp only [Option.map_some', Option.some.injEq]
        exact setPeek_name _ oc
    have memIn : ∀ (j : Nat) (ic : StackItem),
        (stack_inputs op none)[j]? = some ic → ic ∈ stack_inputs op none := by
      intro j ic hic
      obtain ⟨hlt, hget⟩ := List.getElem?_eq_some.mp hic
      exact hget ▸ List.getElem_mem hlt
    have memOut : ∀ (j : Nat) (oc : StackItem),
        (stack_outputs op none)[j]? = some oc → oc ∈ stack_outputs op none := by
      intro j oc hoc
      obtain ⟨hlt, hget⟩ := List.getElem?_eq_some.mp hoc
      exact hget ▸ List.getElem_mem hlt
    cases op with
    | inst d =>
      simp only [Bind.bind, Except.bind, markUsed, Except.ok.injEq] at h
      have hin : se.inputs = a.map (fun input =>
          if (variable_used d input.name || variable_used d "DECREF_INPUTS" ||
              (!input.peek && (b.map (fun o => o.name)).contains input.name)) = true then
            { input with used := true } else input) := by
        rw [← h]
      have hout : se.outputs = b.map (fun output =>
          if (variable_used d output.name) = true then { output with used := true }
          else output) := by
        rw [← h]
      have hseInName : se.inputs.map StackItem.name = a.map StackItem.name := by
        rw [hin]
        apply List.ext_getElem?
        intro n
        rw [List.getElem?_map, List.getElem?_map, List.getElem?_map]
        cases hx : a[n]? with
        | none => simp
        | some x =>
          simp only [Option.map_some', Option.some.injEq]
          exact setUsed_name _ x
      have hseOutName : se.outputs.map StackItem.name = b.map StackItem.name := by
        rw [hout]
        apply List.ext_getElem?
        intro n
        rw [List.getElem?_map, List.getElem?_map, List.getElem?_map]
        cases hx : b[n]? with
        | none => simp
        | some x =>
          simp only [Option.map_some', Option.some.injEq]
          exact setUsed_name _ x
      have hInElt : ∀ (j : Nat) (i0 : StackItem), se.inputs[j]? = some i0 →
          ∃ x, a[j]? = some x ∧
            i0 = (if (variable_used d x.name || variable_used d "DECREF_INPUTS" ||
                (!x.peek && (b.map (fun o => o.name)).contains x.name)) = true then
              { x with used := true } else x) := by
        intro j i0 hj
        rw [hin, List.getElem?_map] at hj
        cases hx : a[j]? with
        | none => rw [hx] at hj; simp at hj
        | some x =>
          rw [hx] at hj
          simp only [Option.map_some', Option.some.injEq] at hj
          exact ⟨x, rfl, hj.symm⟩
      have hOutElt : ∀ (j : Nat) (o0 : StackItem), se.outputs[j]? = some o0 →
          ∃ x, b[j]? = some x ∧
            o0 = (if (variable_used d x.name) = true then { x with used := true } else x) := by
        intro j o0 hj
        rw [hout, List.getElem?_map] at hj
        cases hx : b[j]? with
        | none => rw [hx] at hj; simp at hj
        | some x =>
          rw [hx] at hj
          simp only [Option.map_some', Option.some.injEq] at hj
          exact ⟨x, rfl, hj.symm⟩
      refine ⟨hseInName.trans haName, hseOutName.trans hbName, ?_, ?_, ?_, ?_⟩
      · intro j i0 hj
        obtain ⟨x, hx, hi0⟩ := hInElt j i0 hj
        obtain ⟨ic, hic, hxic⟩ := hwalkIn j x hx
        have hpf : ic.peek = false := (stack_inputs_fields _ none ic (memIn j ic hic)).1
        rw [hi0, setUsed_peek, hxic]
        exact setPeek_peek _ ic hpf
      · intro j o0 hj
        obtain ⟨x, hx, ho0⟩ := hOutElt j o0 hj
        obtain ⟨oc, hoc, hxoc⟩ := hwalkOut j x hx
        have hpf : oc.peek = false := (stack_outputs_fields _ none oc (memOut j oc hoc)).1
        rw [ho0, setUsed_peek, hxoc]
        exact setPeek_peek _ oc hpf
      · intro j i0 hj
        obtain ⟨x, hx, hi0⟩ := hInElt j i0 hj
        obtain ⟨ic, hic, hxic⟩ := hwalkIn j x hx
        have huf : ic.used = false := (stack_inputs_fields _ none ic (memIn j ic hic)).2
        have hxu : x.used = false := by rw [hxic, setPeek_used]; exact huf
        have h2 : x.name = i0.name := by rw [hi0, setUsed_name]
        have hpeek : x.peek = i0.peek := by rw [hi0, setUsed_peek]
        have hnames : (b.map (fun o => o.name)) = se.outputs.map StackItem.name := by
          rw [hseOutName]
        have hused : i0.used = (variable_used d x.name || variable_used d "DECREF_INPUTS" ||
            (!x.peek && (b.map (fun o => o.name)).contains x.name)) := by
          rw [hi0]
          exact setUsed_used _ _ hxu
        show i0.used = (variable_used d i0.name || variable_used d "DECREF_INPUTS" ||
            (!i0.peek && (se.outputs.map StackItem.name).contains i0.name))
        rw [hused, h2, hpeek, hnames]
      · intro j o0 hj
        obtain ⟨x, hx, ho0⟩ := hOutElt j o0 hj
        obtain ⟨oc, hoc, hxoc⟩ := hwalkOut j x hx
        have huf : oc.used = false := (stack_outputs_fields _ none oc (memOut j oc hoc)).2
        have hxu : x.used = false := by rw [hxoc, setPeek_used]; exact huf
        have h2 : x.name = o0.name := by rw [ho0, setUsed_name]
        have hused : o0.used = variable_used d x.name := by
          rw [ho0]
          exact setUsed_used _ _ hxu
        show o0.used = variable_used d o0.name
        rw [hused, h2]
    | pseudo p =>
      simp only [Bind.bind, Except.bind, Except.ok.injEq] at h
      have hin : se.inputs = a := by rw [← h]
      have hout : se.outputs = b := by rw [← h]
      refine ⟨hin ▸ haName, hout ▸ hbName, ?_, ?_, ?_, ?_⟩
      · intro j i0 hj
        rw [hin] at hj
        obtain ⟨ic, hic, hxic⟩ := hwalkIn j i0 hj
        have hpf : ic.peek = false := (stack_inputs_fields _ none ic (memIn j ic hic)).1
        rw [hxic]
        exact setPeek_peek _ ic hpf
      · intro j o0 hj
        rw [hout] at hj
        obtain ⟨oc, hoc, hxoc⟩ := hwalkOut j o0 hj
        have hpf : oc.peek = false := (stack_outputs_fields _ none oc (memOut j oc hoc)).1
        rw [hxoc]
        exact setPeek_peek _ oc hpf
      · intro j i0 hj
        rw [hin] at hj
        obtain ⟨ic, hic, hxic⟩ := hwalkIn j i0 hj
        have huf : ic.used = false := (stack_inputs_fields _ none ic (memIn j ic hic)).2
        rw [hxic, setPeek_used]
        exact huf
      · intro j o0 hj
        rw [hout] at hj
        obtain ⟨oc, hoc, hxoc⟩ := hwalkOut j o0 hj
        have huf : oc.used = false := (stack_outputs_fields _ none oc (memOut j oc hoc)).2
        rw [hxoc, setPeek_used]
        exact huf

/-- C4: walking declared inputs and outputs pairwise, a pair is marked peek
on both sides exactly when the names agree at every position up to and
including its own (the `modified` flag latches on the first divergence, and
the two sides always receive the same mark); in particular for inputs
`[X, Y]` and outputs `[X, Z]`, X is peek on both sides while Y and Z are
not; and an output whose name is a declared input name, standing at a
position where the names have diverged or the inputs are exhausted, makes
`analyze_stack` raise the positioned reuse error for that variable. -/
theorem c4_peek_law :
    (∀ (op : InstOrPseudo) (se : StackEffect) (j : Nat) (i0 o0 : StackItem),
      analyze_stack op none = .ok se →
      se.inputs[j]? = some i0 → se.outputs[j]? = some o0 →
      (((i0.peek = true ∧ o0.peek = true) ↔
        (se.inputs.take (j+1)).map StackItem.name =
          (se.outputs.take (j+1)).map StackItem.name) ∧
       i0.peek = o0.peek)) ∧
    ((analyze_stack c4_exOp none).map (fun se =>
        (se.inputs.map (fun i => (i.name, i.peek)),
         se.outputs.map (fun o => (o.name, o.peek)))) =
      .ok ([("X", true), ("Y", false)], [("X", true), ("Z", false)])) ∧
    (∀ op : InstOrPseudo,
      (∃ (j : Nat) (o0 : StackItem), (stack_outputs op none)[j]? = some o0 ∧
        (pyLookup (input_names_dict op) o0.name).isSome = true ∧
        ((stack_inputs op none)[j]? = none ∨
          ∃ i0, (stack_inputs op none)[j]? = some i0 ∧ ¬i0.name = o0.name)) →
      ∃ nm t, pyLookup (input_names_dict op) nm = some t ∧
        nm ∈ (stack_outputs op none).map StackItem.name ∧
        analyze_stack op none = .error (.analysisError (reuse_error_message nm) t)) := by
  refine ⟨?_, by decide, ?_⟩
  · intro op se j i0 o0 h hj1 hj2
    obtain ⟨hmapIn, hmapOut, hpIn, hpOut, -, -⟩ := analyze_stack_ok_spec op se h
    have hIn := hpIn j i0 hj1
    have hOut := hpOut j o0 hj2
    have hlenIn : se.inputs.length = (stack_inputs op none).length := by
      have := congrArg List.length hmapIn
      simpa using this
    have hlenOut : se.outputs.length = (stack_outputs op none).length := by
      have := congrArg List.length hmapOut
      simpa using this
    have hjIn : j < se.inputs.length := (List.getElem?_eq_some.mp hj1).1
    have hjOut : j < se.outputs.length := (List.getElem?_eq_some.mp hj2).1
    have htake : ((se.inputs.take (j+1)).map StackItem.name =
        (se.outputs.take (j+1)).map StackItem.name) ↔
        ((stack_inputs op none).take (j+1)).map StackItem.name =
          ((stack_outputs op none).take (j+1)).map StackItem.name := by
      rw [List.map_take, List.map_take, List.map_take, List.map_take, hmapIn, hmapOut]
    constructor
    · rw [htake]
      constructor
      · rintro ⟨hp1, -⟩
        exact (hIn.mp hp1).2.2
      · intro hnm
        have hg : peekGranted (stack_inputs op none) (stack_outputs op none) j :=
          ⟨hlenIn ▸ hjIn, hlenOut ▸ hjOut, hnm⟩
        exact ⟨hIn.mpr hg, hOut.mpr hg⟩
    · by_cases hg : peekGranted (stack_inputs op none) (stack_outputs op none) j
      · rw [hIn.mpr hg, hOut.mpr hg]
      · have h1 : ¬i0.peek = true := fun hc => hg (hIn.mp hc)
        have h2 : ¬o0.peek = true := fun hc => hg (hOut.mp hc)
        rw [Bool.not_eq_true] at h1 h2
        rw [h1, h2]
  · intro op hex
    obtain ⟨nm, t, h1, h2, h3⟩ :=
      stackWalk_reuse_error (input_names_dict op) (stack_outputs op none)
        (stack_inputs op none) false hex
    refine ⟨nm, t, h1, h2, ?_⟩
    rw [analyze_stack, h3]
    rfl

/-- C4 witness: the peek law applied to the concrete effect `[X, Y] -- [X, Z]`
at position 0, and the reuse error produced for `[X, Y] -- [X, X]`. -/
theorem c4_peek_law_witness :
    ((((c4_itemXpeek.peek = true ∧ c4_itemXpeek.peek = true) ↔
      (c4_seX.inputs.take 1).map StackItem.name =
        (c4_seX.outputs.take 1).map StackItem.name) ∧
      c4_itemXpeek.peek = c4_itemXpeek.peek)) ∧
    (∃ nm t, pyLookup (input_names_dict c4_exReuse) nm = some t ∧
      nm ∈ (stack_outputs c4_exReuse none).map StackItem.name ∧
      analyze_stack c4_exReuse none = .error (.analysisError (reuse_error_message nm) t)) :=
  ⟨c4_peek_law.1 c4_exOp c4_seX 0 c4_itemXpeek c4_itemXpeek (by decide) (by decide) (by decide),
   c4_peek_law.2.2 c4_exReuse
     ⟨1, c4_itemX, by decide, by decide, Or.inr ⟨c4_itemY, by decide, by decide⟩⟩⟩

/-- C7 counterexample: in `c7_exInst` the body references `DECREF_INPUTS`,
yet the output stack item R is NOT marked used (outputs are marked used
only when their own name is referenced); and in the op-kind definition
`c7_exOpKind` (not inst-kind) the input X IS marked used — `used` marking
applies to every `parser.InstDef`, not only to inst-style definitions. -/
theorem c7_used_counterexample :
    ((analyze_stack (.inst c7_exInst) none).map
        (fun se => se.outputs.map (fun o => (o.name, o.used))) = .ok [("R", false)]) ∧
    variable_used c7_exInst "DECREF_INPUTS" = true ∧
    ((analyze_stack (.inst c7_exOpKind) none).map
        (fun se => se.inputs.map (fun i => (i.name, i.used))) = .ok [("X", true)]) ∧
    c7_exOpKind.kind = "op" := by
  refine ⟨by decide, by decide, by decide, rfl⟩

/-- C7 (amended): for every `parser.InstDef` node (both inst-kind and
op-kind definitions), an input stack item is marked used iff its name is
referenced in the body, or DECREF_INPUTS is referenced, or it is a
non-peeked input whose name also appears among the output names; an output
stack item is marked used iff its own name is referenced in the body; for
pseudo nodes no item is marked used. -/
theorem c7_used_marking :
    (∀ (d : InstDef) (se : StackEffect), analyze_stack (.inst d) none = .ok se →
      (∀ (j : Nat) (i0 : StackItem), se.inputs[j]? = some i0 →
        i0.used = (variable_used d i0.name || variable_used d "DECREF_INPUTS" ||
          (!i0.peek && (se.outputs.map StackItem.name).contains i0.name))) ∧
      (∀ (j : Nat) (o0 : StackItem), se.outputs[j]? = some o0 →
        o0.used = variable_used d o0.name)) ∧
    (∀ (p : PseudoNode) (se : StackEffect), analyze_stack (.pseudo p) none = .ok se →
      ∀ (j : Nat) (x : StackItem),
        se.inputs[j]? = some x ∨ se.outputs[j]? = some x → x.used = false) := by
  constructor
  · intro d se h
    obtain ⟨-, -, -, -, hu1, hu2⟩ := analyze_stack_ok_spec (.inst d) se h
    exact ⟨fun j i0 hj => hu1 j i0 hj, fun j o0 hj => hu2 j o0 hj⟩
  · intro p se h j x hx
    obtain ⟨-, -, -, -, hu1, hu2⟩ := analyze_stack_ok_spec (.pseudo p) se h
    cases hx with
    | inl hx => exact hu1 j x hx
    | inr hx => exact hu2 j x hx

/-- C7 witness: the amended marking law applied to `c7_exInst`, showing its
output R is used exactly when its name is referenced (here: not). -/
theorem c7_used_marking_witness :
    c7_itemR.used = variable_used c7_exInst c7_itemR.name :=
  (c7_used_marking.1 c7_exInst c7_se (by decide)).2 0 c7_itemR (by decide)

theorem pyLookup_pyInsert_self {k v : Type} [DecidableEq k]
    (m : List (k × v)) (key : k) (val : v) :
    pyLookup (pyInsert m key val) key = some val := by
  induction m with
  | nil => simp [pyInsert, pyLookup]
  | cons hd tl ih =>
    obtain ⟨a, b⟩ := hd
    simp only [pyInsert]
    by_cases hak : a = key
    · subst hak; simp [pyLookup]
    · rw [if_neg hak]
      simp only [pyLookup, if_neg hak]
      exact ih

theorem pyLookup_pyInsert_ne {k v : Type} [DecidableEq k]
    (m : List (k × v)) (key key' : k) (val : v) (h : ¬key = key') :
    pyLookup (pyInsert m key val) key' = pyLookup m key' := by
  induction m with
  | nil => simp [pyInsert, pyLookup, h]
  | cons hd tl ih =>
    obtain ⟨a, b⟩ := hd
    simp only [pyInsert]
    by_cases hak : a = key
    · subst hak
      rw [if_pos rfl]
      simp only [pyLookup, if_neg h]
    · rw [if_neg hak]
      simp only [pyLookup]
      by_cases hk' : a = key'
      · rw [if_pos hk', if_pos hk']
      · rw [if_neg hk', if_neg hk']
        exact ih

/-- C6: for every pair of op-kind definitions sharing a name, registering
the second without the override annotation raises the duplicate-definition
error naming both source contexts; with the override annotation,
registration succeeds and the uop registry afterwards maps the name to the
second definition's uop. -/
theorem c6_override_rule :
    (∀ (op : InstDef) (uops : List (String × Uop)) (prev : Uop) (t : Token),
      op.kind = "op" →
      pyLookup uops op.name = some prev →
      op.annotations.contains "override" = false →
      op.tokens.head? = some t →
      add_op op uops = .error (override_error op.name op.context prev.context t)) ∧
    (∀ (op : InstDef) (uops uops1 : List (String × Uop)) (prev u : Uop),
      op.kind = "op" →
      pyLookup uops op.name = some prev →
      op.annotations.contains "override" = true →
      make_uop op.name op op.inputs uops = .ok (u, uops1) →
      add_op op uops = .ok (pyInsert uops1 op.name u) ∧
        pyLookup (pyInsert uops1 op.name u) op.name = some u) := by
  constructor
  · intro op uops prev t hkind hprev hov hhead
    have hov2 : ¬("override" ∈ op.annotations) := by simpa using hov
    rw [add_op]
    simp [hkind, hprev, hov2, hhead, Bind.bind, Except.bind]
  · intro op uops uops1 prev u hkind hprev hov hmk
    have h1 : add_op op uops = .ok (pyInsert uops1 op.name u) := by
      have hov2 : "override" ∈ op.annotations := by simpa using hov
      rw [add_op]
      simp [hkind, hprev, hov2, hmk, Bind.bind, Except.bind]
    exact ⟨h1, pyLookup_pyInsert_self uops1 op.name u⟩

/-- C6 witness: the override rule on the concrete duplicated op X — the
unannotated second definition errors naming contexts c2 and c1; the
override-annotated second definition succeeds and the registry maps X to
its uop. -/
theorem c6_override_rule_witness :
    (add_op c6_op2plain [("X", c6_u1)] =
      .error (override_error "X" (some "c2") (some "c1") (tk 12 "IDENTIFIER" "X"))) ∧
    (add_op c6_op2 [("X", c6_u1)] = .ok (pyInsert [("X", c6_u1)] "X" c6_u2) ∧
      pyLookup (pyInsert [("X", c6_u1)] "X" c6_u2) "X" = some c6_u2) :=
  ⟨c6_override_rule.1 c6_op2plain [("X", c6_u1)] c6_u1 (tk 12 "IDENTIFIER" "X")
      (by decide) (by decide) (by decide) (by decide),
   c6_override_rule.2 c6_op2 [("X", c6_u1)] [("X", c6_u1)] c6_u1 c6_u2
      (by decide) (by decide) (by decide) (by decide)⟩

theorem setFamilyFold_lookup (name : String) (members : List String) :
    ∀ (instructions : List (String × Instruction)) (k : String),
      pyLookup (members.foldl (fun acc m =>
        match pyLookup acc m with
        | some i => pyInsert acc m { i with family := some name }
        | none => acc) instructions) k =
      (if members.contains k then
        (pyLookup instructions k).map (fun i => { i with family := some name })
      else pyLookup instructions k) := by
  induction members with
  | nil => intro instructions k; simp
  | cons m rest ih =>
    intro instructions k
    simp only [List.foldl_cons]
    set instructions' := (match pyLookup instructions m with
      | some i => pyInsert instructions m { i with family := some name }
      | none => instructions) with hdef
    have hstep : ∀ k', pyLookup instructions' k' =
        (if m = k' then (pyLookup instructions k').map (fun i => { i with family := some name })
         else pyLookup instructions k') := by
      intro k'
      rw [hdef]
      cases hm : pyLookup instructions m with
      | none =>
        by_cases hmk : m = k'
        · subst hmk; simp [hm]
        · simp [hmk]
      | some i =>
        by_cases hmk : m = k'
        · subst hmk
          simp only [if_pos rfl, hm, Option.map_some']
          exact pyLookup_pyInsert_self instructions m _
        · rw [if_neg hmk]
          exact pyLookup_pyInsert_ne instructions m k' _ hmk
    rw [ih instructions' k]
    by_cases hrk : rest.contains k
    · rw [if_pos hrk]
      by_cases hmk : m = k
      · subst hmk
        rw [hstep m, if_pos rfl]
        have hcon : (m :: rest).contains m = true := by simp
        rw [if_pos hcon, Option.map_map]
        cases pyLookup instructions m <;> rfl
      · rw [hstep k, if_neg hmk]
        have hcon : (m :: rest).contains k = true := by
          simp only [List.contains_cons, hrk, Bool.or_true]
        rw [if_pos hcon]
    · rw [if_neg hrk]
      by_cases hmk : m = k
      · subst hmk
        rw [hstep m, if_pos rfl]
        have hcon : (m :: rest).contains m = true := by simp
        rw [if_pos hcon]
      · rw [hstep k, if_neg hmk]
        have hcon : (m :: rest).contains k = rest.contains k := by
          simp only [List.contains_cons]
          have : (k == m) = false := by
            simp only [beq_eq_false_iff_ne, ne_eq]
            intro hc; exact hmk hc.symm
          rw [this, Bool.false_or]
        rw [hcon, if_neg hrk]

/-- C9: resolving a family over already-registered instructions sets every
member instruction's family back-reference to that family, marks the
instruction registered under the family's own name as an explicit jump
target, and stores the family under its name. -/
theorem c9_family_resolution :
    ∀ (f : FamilyNode) (instructions : List (String × Instruction))
      (families : List (String × Family))
      (instructions1 : List (String × Instruction)) (families1 : List (String × Family)),
      add_family f instructions families = .ok (instructions1, families1) →
      (∀ m ∈ f.members, ∃ i, pyLookup instructions1 m = some i ∧ i.family = some f.name) ∧
      (∃ hd, pyLookup instructions1 f.name = some hd ∧ hd.is_target = true) ∧
      pyLookup families1 f.name =
        some { name := f.name, size := f.size, members := f.members } := by
  intro f instructions families instructions1 families1 h
  rw [add_family] at h
  cases hall : f.members.all (fun m => (pyLookup instructions m).isSome) with
  | false =>
    rw [hall] at h
    simp [Bind.bind, Except.bind] at h
  | true =>
    rw [hall] at h
    simp only [if_pos rfl, Bind.bind, Except.bind, if_true] at h
    cases hhd : pyLookup (f.members.foldl (fun acc m =>
        match pyLookup acc m with
        | some i => pyInsert acc m { i with family := some f.name }
        | none => acc) instructions) f.name with
    | none =>
      rw [hhd] at h
      simp at h
    | some head =>
      rw [hhd] at h
      simp only [Except.ok.injEq, Prod.mk.injEq] at h
      obtain ⟨h1, h2⟩ := h
      refine ⟨?_, ?_, ?_⟩
      · intro m hm
        by_cases hmf : m = f.name
        · subst hmf
          refine ⟨{ head with is_target := true }, ?_, ?_⟩
          · rw [← h1]
            exact pyLookup_pyInsert_self _ f.name _
          · show head.family = some f.name
            rw [setFamilyFold_lookup f.name f.members instructions f.name] at hhd
            have hcon : f.members.contains f.name = true := by
              simp only [List.contains_iff_exists_mem_beq]
              exact ⟨f.name, hm, by simp⟩
            rw [if_pos hcon] at hhd
            cases hbase : pyLookup instructions f.name with
            | none => rw [hbase] at hhd; simp at hhd
            | some i0 =>
              rw [hbase] at hhd
              simp only [Option.map_some', Option.some.injEq] at hhd
              rw [← hhd]
        · have hne : ¬f.name = m := fun hc => hmf hc.symm
          have hl : pyLookup instructions1 m =
              pyLookup (f.members.foldl (fun acc m =>
                match pyLookup acc m with
                | some i => pyInsert acc m { i with family := some f.name }
                | none => acc) instructions) m := by
            rw [← h1]
            exact pyLookup_pyInsert_ne _ f.name m _ hne
          rw [setFamilyFold_lookup f.name f.members instructions m] at hl
          have hcon : f.members.contains m = true := by
            simp only [List.contains_iff_exists_mem_beq]
            exact ⟨m, hm, by simp⟩
          rw [if_pos hcon] at hl
          have hsome : (pyLookup instructions m).isSome = true := by
            rw [List.all_eq_true] at hall
            exact hall m hm
          cases hbase : pyLookup instructions m with
          | none => rw [hbase] at hsome; simp at hsome
          | some i0 =>
            rw [hbase] at hl
            exact ⟨_, hl, rfl⟩
      · refine ⟨{ head with is_target := true }, ?_, rfl⟩
        rw [← h1]
        exact pyLookup_pyInsert_self _ f.name _
      · rw [← h2]
        exact pyLookup_pyInsert_self _ f.name _

/-- C9 witness: the family F over members A, B and head F itself — A ends
up with its family reference set, and F is a jump target. -/
theorem c9_family_resolution_witness :
    (∃ i, pyLookup c9_res_instrs "A" = some i ∧ i.family = some "F") ∧
    (∃ hd, pyLookup c9_res_instrs "F" = some hd ∧ hd.is_target = true) := by
  have h := c9_family_resolution c9_fam
    [("A", c9_instr "A"), ("B", c9_instr "B"), ("F", c9_instr "F")] []
    c9_res_instrs c9_res_fams (by decide)
  exact ⟨h.1 "A" (by decide), h.2.1⟩

/-- C10: an inst-kind definition whose name coincides with an existing uop
registry entry is desugared with no duplicate or override check: the
synthesized uop is stored under the instruction's name, replacing any
earlier entry; the override rule is enforced only for op-kind definitions
(second conjunct: the op-kind duplicate error). -/
theorem c10_inst_shadows_uop :
    (∀ (inst : InstDef) (instructions : List (String × Instruction))
        (uops uops1 : List (String × Uop)) (u : Uop),
      inst.kind = "inst" →
      make_uop ("_" ++ inst.name) inst (desugarSplit inst.inputs).1 uops = .ok (u, uops1) →
      desugar_inst inst instructions uops =
        .ok (add_instruction inst.first_token inst.name
          (if (desugarSplit inst.inputs).2.2 < 0 then
            (desugarSplit inst.inputs).2.1 ++ [.uop { u with implicitly_created := true }]
          else (desugarSplit inst.inputs).2.1.set (desugarSplit inst.inputs).2.2.toNat
            (.uop { u with implicitly_created := true })) instructions,
          pyInsert uops1 inst.name { u with implicitly_created := true }) ∧
      pyLookup (pyInsert uops1 inst.name { u with implicitly_created := true }) inst.name =
        some { u with implicitly_created := true }) ∧
    (∀ (op : InstDef) (uops : List (String × Uop)) (prev : Uop) (t : Token),
      op.kind = "op" →
      pyLookup uops op.name = some prev →
      op.annotations.contains "override" = false →
      op.tokens.head? = some t →
      add_op op uops = .error (override_error op.name op.context prev.context t)) := by
  constructor
  · intro inst instructions uops uops1 u hkind hmk
    rcases hds : desugarSplit inst.inputs with ⟨op_inputs, parts, uop_index⟩
    rw [hds] at hmk
    constructor
    · rw [desugar_inst]
      simp [hds, hkind, hmk, Bind.bind, Except.bind]
    · exact pyLookup_pyInsert_self uops1 inst.name _
  · intro op uops prev t hkind hprev hov hhead
    have hov2 : ¬("override" ∈ op.annotations) := by simpa using hov
    rw [add_op]
    simp [hkind, hprev, hov2, hhead, Bind.bind, Except.bind]

/-- C10 witness: desugaring the inst EXI over a registry already mapping
EXI silently rebinds EXI to the synthesized uop. -/
theorem c10_inst_shadows_uop_witness :
    pyLookup (pyInsert [("EXI", c10_old)] "EXI" { c10_u with implicitly_created := true })
      "EXI" = some { c10_u with implicitly_created := true } :=
  (c10_inst_shadows_uop.1 c10_inst [] [("EXI", c10_old)] [("EXI", c10_old)] c10_u
    (by decide) (by decide)).2

theorem pyLookup_append_some {k v : Type} [DecidableEq k] (m l : List (k × v))
    (x : k) (w : v) (h : pyLookup m x = some w) : pyLookup (m ++ l) x = some w := by
  induction m with
  | nil => simp [pyLookup] at h
  | cons e rest ih =>
    by_cases he : e.1 = x
    · simp only [pyLookup, he, if_pos rfl] at h
      simpa [List.cons_append, pyLookup, he] using h
    · simp only [pyLookup, he, if_neg he] at h ⊢
      exact ih h

theorem pyLookup_append_none {k v : Type} [DecidableEq k] (m l : List (k × v))
    (x : k) (h : pyLookup m x = none) : pyLookup (m ++ l) x = pyLookup l x := by
  induction m with
  | nil => simp [pyLookup]
  | cons e rest ih =>
    by_cases he : e.1 = x
    · simp [pyLookup, he] at h
    · simp only [pyLookup, he, if_neg he] at h ⊢
      exact ih h

theorem pyInsert_append {k v : Type} [DecidableEq k] (m : List (k × v))
    (n : k) (w : v) (h : pyLookup m n = none) : pyInsert m n w = m ++ [(n, w)] := by
  induction m with
  | nil => rfl
  | cons e rest ih =>
    by_cases he : e.1 = n
    · simp [pyLookup, he] at h
    · simp only [pyLookup, if_neg he] at h
      cases e with
      | mk a b =>
        simp only [pyInsert, if_neg he, List.cons_append]
        rw [ih h]

theorem pyValues_append {k v : Type} (m l : List (k × v)) :
    pyValues (m ++ l) = pyValues m ++ pyValues l := List.map_append _ m l

theorem le_foldl_max : ∀ (l : List Nat) (a : Nat), a ≤ l.foldl max a
  | [], _ => le_refl _
  | x :: rest, a => le_trans (le_max_left a x) (le_foldl_max rest (max a x))

theorem mem_le_foldl_max (l : List Nat) : ∀ (a : Nat), ∀ x ∈ l, x ≤ l.foldl max a := by
  induction l with
  | nil => intro a x h; cases h
  | cons y rest ih =>
    intro a x h
    cases h with
    | head => exact le_trans (le_max_right a y) (le_foldl_max rest (max a y))
    | tail _ h2 => exact ih (max a y) x h2

theorem contains_iff_mem (l : List Nat) (a : Nat) : l.contains a = true ↔ a ∈ l := by
  simp [List.contains, List.elem_iff]

theorem firstFree_spec (vals : List Nat) : ∀ (fuel n : Nat),
    (vals.foldl max 0) + 1 ≤ n + fuel →
    (firstFree vals n fuel) ∉ vals ∧ n ≤ firstFree vals n fuel ∧
      ∀ m, n ≤ m → m < firstFree vals n fuel → m ∈ vals
  | 0, n, h => by
    refine ⟨fun hmem => ?_, le_refl _, fun m h1 h2 => absurd (lt_of_le_of_lt h1 h2) (lt_irrefl _)⟩
    have := mem_le_foldl_max vals 0 n hmem
    omega
  | fuel + 1, n, h => by
    simp only [firstFree]
    by_cases hc : vals.contains n
    · simp only [hc, if_pos rfl]
      have hrec := firstFree_spec vals fuel (n + 1) (by omega)
      refine ⟨hrec.1, le_trans (Nat.le_succ n) hrec.2.1, fun m h1 h2 => ?_⟩
      rcases Nat.eq_or_lt_of_le h1 with he | hl
      · subst he; exact (contains_iff_mem vals n).1 hc
      · exact hrec.2.2 m hl h2
    · simp only [hc, if_neg (by simpa using hc)]
      refine ⟨fun hmem => hc ((contains_iff_mem vals n).2 hmem), le_refl _,
        fun m h1 h2 => absurd (lt_of_le_of_lt h1 h2) (lt_irrefl _)⟩

theorem firstFreeFrom_spec (vals : List Nat) (n : Nat) :
    (firstFreeFrom vals n) ∉ vals ∧ n ≤ firstFreeFrom vals n ∧
      ∀ m, n ≤ m → m < firstFreeFrom vals n → m ∈ vals :=
  firstFree_spec vals ((vals.foldl max 0) + 2) n (by omega)

theorem firstFreeFrom_append_lt (vals : List Nat) (v n : Nat) (h : v < n) :
    firstFreeFrom (vals ++ [v]) n = firstFreeFrom vals n := by
  have ha := firstFreeFrom_spec vals n
  have hb := firstFreeFrom_spec (vals ++ [v]) n
  apply le_antisymm
  · by_contra hc
    push_neg at hc
    have hmem := hb.2.2 _ ha.2.1 hc
    rcases List.mem_append.1 hmem with hm | hm
    · exact ha.1 hm
    · have : firstFreeFrom vals n = v := List.mem_singleton.1 hm
      omega
  · by_contra hc
    push_neg at hc
    have hmem := ha.2.2 _ hb.2.1 hc
    exact hb.1 (List.mem_append.2 (Or.inl hmem))
  
theorem freeValues_append_lt (vals : List Nat) (v : Nat) :
    ∀ (k start : Nat), v < start →
      freeValues (vals ++ [v]) start k = freeValues vals start k
  | 0, _, _ => rfl
  | k + 1, start, h => by
    simp only [freeValues, firstFreeFrom_append_lt vals v start h]
    have hge := (firstFreeFrom_spec vals start).2.1
    rw [freeValues_append_lt vals v k (firstFreeFrom vals start + 1) (by omega)]

theorem cursorAfter_append_lt (vals : List Nat) (v : Nat) :
    ∀ (k start : Nat), v < start →
      cursorAfter (vals ++ [v]) start k = cursorAfter vals start k
  | 0, _, _ => rfl
  | k + 1, start, h => by
    simp only [cursorAfter, firstFreeFrom_append_lt vals v start h]
    have hge := (firstFreeFrom_spec vals start).2.1
    rw [cursorAfter_append_lt vals v k (firstFreeFrom vals start + 1) (by omega)]

theorem foldl_addInstrOp_spec : ∀ (names : List String) (m : List (String × Nat)) (c : Nat),
    names.Nodup →
    names.foldl addInstrOp (m, c) =
      (m ++ (names.filter (fun n => (pyLookup m n).isNone)).zip
          (freeValues (pyValues m) c ((names.filter (fun n => (pyLookup m n).isNone)).length)),
       cursorAfter (pyValues m) c ((names.filter (fun n => (pyLookup m n).isNone)).length))
  | [], m, c, _ => by simp [freeValues, cursorAfter]
  | n :: rest, m, c, hnd => by
    have hn_rest : n ∉ rest := (List.nodup_cons.1 hnd).1
    have hnd2 : rest.Nodup := (List.nodup_cons.1 hnd).2
    by_cases hs : (pyLookup m n).isSome
    · have hstep : addInstrOp (m, c) n = (m, c) := by
        simp [addInstrOp, hs]
      have hfilter : (n :: rest).filter (fun x => (pyLookup m x).isNone) =
          rest.filter (fun x => (pyLookup m x).isNone) := by
        simp [List.filter_cons, Option.isNone, Option.isSome] at *
        cases hx : pyLookup m n with
        | none => rw [hx] at hs; simp at hs
        | some w => simp
      rw [List.foldl_cons, hstep, hfilter]
      exact foldl_addInstrOp_spec rest m c hnd2
    · have hnone : pyLookup m n = none := Option.not_isSome_iff_eq_none.1 hs
      have hstep : addInstrOp (m, c) n =
          (pyInsert m n (firstFreeFrom (pyValues m) c), firstFreeFrom (pyValues m) c + 1) := by
        simp [addInstrOp, hs]
      rw [List.foldl_cons, hstep, pyInsert_append m n _ hnone]
      have hge := (firstFreeFrom_spec (pyValues m) c).2.1
      have hrec := foldl_addInstrOp_spec rest (m ++ [(n, firstFreeFrom (pyValues m) c)])
        (firstFreeFrom (pyValues m) c + 1) hnd2
      rw [hrec]
      have hfeq : rest.filter
            (fun x => (pyLookup (m ++ [(n, firstFreeFrom (pyValues m) c)]) x).isNone) =
          rest.filter (fun x => (pyLookup m x).isNone) := by
        apply List.filter_congr
        intro x hx
        have hxn : n ≠ x := fun he => hn_rest (he ▸ hx)
        cases hl : pyLookup m x with
        | some w => rw [pyLookup_append_some m _ x w hl]
        | none =>
          rw [pyLookup_append_none m _ x hl]
          simp [pyLookup, hxn]
      have hfcons : (n :: rest).filter (fun x => (pyLookup m x).isNone) =
          n :: rest.filter (fun x => (pyLookup m x).isNone) := by
        simp [List.filter_cons, hnone]
      rw [hfeq, hfcons]
      rw [pyValues_append m [(n, firstFreeFrom (pyValues m) c)]]
      have hpv : pyValues [(n, firstFreeFrom (pyValues m) c)] =
          [firstFreeFrom (pyValues m) c] := rfl
      rw [hpv,
        freeValues_append_lt (pyValues m) (firstFreeFrom (pyValues m) c) _ _ (by omega),
        cursorAfter_append_lt (pyValues m) (firstFreeFrom (pyValues m) c) _ _ (by omega)]
      simp only [List.length_cons, freeValues, cursorAfter, List.zip_cons_cons,
        List.append_assoc, List.singleton_append]

theorem strContains_iff_mem (l : List String) (a : String) : l.contains a = true ↔ a ∈ l := by
  simp [List.contains, List.elem_iff]

theorem foldl_pseudoStep_map : ∀ (names : List String)
    (m : List (String × Nat)) (ps : List (String × PseudoInstruction)) (op : Nat),
    names.Nodup → (∀ nm ∈ names, pyLookup m nm = none) →
    (names.foldl pseudoStep ((m, ps), op)).1.1 =
      m ++ names.zip (List.range' op names.length)
  | [], m, ps, op, _, _ => by simp
  | n :: rest, m, ps, op, hnd, hfree => by
    have hn_rest : n ∉ rest := (List.nodup_cons.1 hnd).1
    have hnone : pyLookup m n = none := hfree n (List.mem_cons_self n rest)
    rw [List.foldl_cons]
    have hps : (pseudoStep ((m, ps), op) n).1.1 = m ++ [(n, op)] := by
      simp only [pseudoStep]
      exact pyInsert_append m n op hnone
    have hps2 : pseudoStep ((m, ps), op) n =
        ((m ++ [(n, op)], (pseudoStep ((m, ps), op) n).1.2), op + 1) := by
      refine Prod.ext (Prod.ext hps rfl) rfl
    rw [hps2]
    rw [foldl_pseudoStep_map rest (m ++ [(n, op)]) _ (op + 1) (List.nodup_cons.1 hnd).2
      (fun nm hnm => by
        have hne : n ≠ nm := fun he => hn_rest (he ▸ hnm)
        rw [pyLookup_append_none m _ nm (hfree nm (List.mem_cons_of_mem n hnm))]
        simp [pyLookup, hne])]
    simp [List.range'_succ, List.append_assoc]

theorem mapM_opcodeWriteback_ok : ∀ (instructions : List (String × Instruction))
    (instmap : List (String × Nat)),
    (∀ e ∈ instructions, (pyLookup instmap e.1).isSome) →
    ∃ l, instructions.mapM (opcodeWriteback instmap) = Except.ok l
  | [], _, _ => ⟨[], rfl⟩
  | e :: rest, instmap, h => by
    obtain ⟨w, hw⟩ := Option.isSome_iff_exists.1 (h e (List.mem_cons_self e rest))
    obtain ⟨l, hl⟩ := mapM_opcodeWriteback_ok rest instmap
      (fun x hx => h x (List.mem_cons_of_mem e hx))
    have hl2 : List.mapM.loop (opcodeWriteback instmap) rest [] = Except.ok l := hl
    refine ⟨(e.1, { e.2 with opcode := Int.ofNat w }) :: l, ?_⟩
    rw [List.mapM_cons]
    simp [opcodeWriteback, hw, hl, hl2, Bind.bind, Except.bind, Pure.pure, Except.pure]

theorem addInstrOp_preserves (st : List (String × Nat) × Nat) (n x : String) (w : Nat)
    (h : pyLookup st.1 x = some w) : pyLookup (addInstrOp st n).1 x = some w := by
  by_cases hs : (pyLookup st.1 n).isSome
  · simp [addInstrOp, hs, h]
  · have hnone : pyLookup st.1 n = none := Option.not_isSome_iff_eq_none.1 hs
    simp only [addInstrOp, hs, Bool.false_eq_true, if_neg, ite_false]
    rw [pyInsert_append st.1 n _ hnone]
    exact pyLookup_append_some st.1 _ x w h

theorem foldl_addInstrOp_preserves : ∀ (names : List String)
    (st : List (String × Nat) × Nat) (x : String) (w : Nat),
    pyLookup st.1 x = some w → pyLookup (names.foldl addInstrOp st).1 x = some w
  | [], _, _, _, h => h
  | n :: rest, st, x, w, h => by
    rw [List.foldl_cons]
    exact foldl_addInstrOp_preserves rest _ x w (addInstrOp_preserves st n x w h)

theorem foldl_addInstrOp_covers : ∀ (names : List String)
    (st : List (String × Nat) × Nat) (x : String), x ∈ names →
    (pyLookup (names.foldl addInstrOp st).1 x).isSome
  | n :: rest, st, x, hx => by
    rw [List.foldl_cons]
    rcases List.mem_cons.1 hx with he | hm
    · subst he
      have hsome : (pyLookup (addInstrOp st x).1 x).isSome := by
        by_cases hs : (pyLookup st.1 x).isSome
        · simpa [addInstrOp, hs] using hs
        · have hnone : pyLookup st.1 x = none := Option.not_isSome_iff_eq_none.1 hs
          simp only [addInstrOp, hs, Bool.false_eq_true, if_neg, ite_false]
          rw [pyInsert_append st.1 x _ hnone,
            pyLookup_append_none st.1 _ x hnone]
          simp [pyLookup]
      obtain ⟨w, hw⟩ := Option.isSome_iff_exists.1 hsome
      rw [foldl_addInstrOp_preserves rest _ x w hw]
      rfl
    · exact foldl_addInstrOp_covers rest _ x hm

theorem insertSorted_perm (x : String) : ∀ (l : List String),
    (insertSorted x l).Perm (x :: l)
  | [] => List.Perm.refl _
  | y :: rest => by
    simp only [insertSorted]
    by_cases hle : x ≤ y
    · simp [hle]
    · simp only [hle, if_neg, ite_false]
      exact ((insertSorted_perm x rest).cons y).trans (List.Perm.swap x y rest)

theorem pySorted_perm : ∀ (l : List String), (pySorted l).Perm l
  | [] => List.Perm.refl _
  | x :: rest => by
    simp only [pySorted, List.foldr_cons]
    exact (insertSorted_perm x (rest.foldr insertSorted [])).trans
      ((pySorted_perm rest).cons x)

theorem pySorted_nodup (l : List String) (h : l.Nodup) : (pySorted l).Nodup :=
  (pySorted_perm l).nodup_iff.2 h

theorem pySorted_mem (l : List String) (x : String) : x ∈ pySorted l ↔ x ∈ l :=
  (pySorted_perm l).mem_iff

theorem foldl_partitionStep (spec instr : List String) : ∀ (l : List Instruction)
    (a : List String × List String),
    l.foldl (partitionStep spec instr) a =
      (a.1 ++ (l.filter (fun i => !spec.contains i.name && !instr.contains i.name &&
          !i.properties.oparg)).map (fun i => i.name),
       a.2 ++ (l.filter (fun i => !spec.contains i.name && !instr.contains i.name &&
          i.properties.oparg)).map (fun i => i.name))
  | [], a => by simp
  | i :: rest, a => by
    rw [List.foldl_cons, foldl_partitionStep spec instr rest]
    by_cases h1 : i.name ∈ spec
    · have h1c : spec.contains i.name = true := (strContains_iff_mem _ _).2 h1
      simp [partitionStep, h1c, h1, List.filter_cons]
    · have h1c : spec.contains i.name = false := by
        rw [Bool.eq_false_iff]
        exact fun hc => h1 ((strContains_iff_mem _ _).1 hc)
      by_cases h2 : i.name ∈ instr
      · have h2c : instr.contains i.name = true := (strContains_iff_mem _ _).2 h2
        simp [partitionStep, h1c, h1, h2c, h2, List.filter_cons]
      · have h2c : instr.contains i.name = false := by
          rw [Bool.eq_false_iff]
          exact fun hc => h2 ((strContains_iff_mem _ _).1 hc)
        by_cases h3 : i.properties.oparg
        · simp [partitionStep, h1c, h1, h2c, h2, h3, List.filter_cons, List.append_assoc]
        · simp [partitionStep, h1c, h1, h2c, h2, h3, List.filter_cons, List.append_assoc]

theorem opargPartition_eq (instructions : List (String × Instruction))
    (spec instr : List String) :
    opargPartition instructions spec instr =
      (((pyValues instructions).filter (fun i => !spec.contains i.name &&
          !instr.contains i.name && !i.properties.oparg)).map (fun i => i.name),
       ((pyValues instructions).filter (fun i => !spec.contains i.name &&
          !instr.contains i.name && i.properties.oparg)).map (fun i => i.name)) := by
  rw [opargPartition, foldl_partitionStep]
  simp

theorem specAdd_fold_nodup : ∀ (l : List String) (acc : List String),
    acc.Nodup → (l.foldl specAdd acc).Nodup
  | [], _, h => h
  | m :: rest, acc, h => by
    rw [List.foldl_cons]
    apply specAdd_fold_nodup rest
    by_cases hc : m ∈ acc
    · have hcc : acc.contains m = true := (strContains_iff_mem _ _).2 hc
      simpa [specAdd, hcc, hc] using h
    · have hcc : acc.contains m = false := by
        rw [Bool.eq_false_iff]
        exact fun hx => hc ((strContains_iff_mem _ _).1 hx)
      simp only [specAdd, hcc, Bool.false_eq_true, if_neg, ite_false]
      exact List.Nodup.append h (List.nodup_singleton m)
        (fun x hx hx2 => hc ((List.mem_singleton.1 hx2) ▸ hx))

theorem specializedOf_nodup (families : List (String × Family)) :
    (specializedOf families).Nodup := by
  rw [specializedOf]
  generalize pyValues families = fams
  have haux : ∀ (fs : List Family) (acc : List String), acc.Nodup →
      (fs.foldl (fun acc fam => fam.members.foldl specAdd acc) acc).Nodup := by
    intro fs
    induction fs with
    | nil => intro acc h; exact h
    | cons f rest ih =>
      intro acc h
      rw [List.foldl_cons]
      exact ih _ (specAdd_fold_nodup f.members acc h)
  exact haux fams [] List.nodup_nil

theorem pyLookup_eq_none_of_not_mem_keys {k v : Type} [DecidableEq k] :
    ∀ (m : List (k × v)) (x : k), x ∉ pyKeys m → pyLookup m x = none
  | [], _, _ => rfl
  | e :: rest, x, h => by
    have hne : e.1 ≠ x := fun he => h (he ▸ List.mem_cons_self e.1 (pyKeys rest))
    simp only [pyLookup, hne, if_neg hne]
    exact pyLookup_eq_none_of_not_mem_keys rest x
      (fun hm => h (List.mem_cons_of_mem e.1 hm))

theorem foldl_addInstrOp_fresh : ∀ (names : List String)
    (st : List (String × Nat) × Nat) (nm : String), nm ∉ names →
    pyLookup st.1 nm = none → pyLookup (names.foldl addInstrOp st).1 nm = none
  | [], _, _, _, h0 => h0
  | n :: rest, st, nm, hnm, h0 => by
    have hne : n ≠ nm := fun he => hnm (he ▸ List.mem_cons_self n rest)
    rw [List.foldl_cons]
    apply foldl_addInstrOp_fresh rest _ nm (fun hm => hnm (List.mem_cons_of_mem n hm))
    by_cases hs : (pyLookup st.1 n).isSome
    · simpa [addInstrOp, hs] using h0
    · have hnone : pyLookup st.1 n = none := Option.not_isSome_iff_eq_none.1 hs
      simp only [addInstrOp, hs, Bool.false_eq_true, if_neg, ite_false]
      rw [pyInsert_append st.1 n _ hnone, pyLookup_append_none st.1 _ nm h0]
      simp [pyLookup, hne]

theorem assign_opcodes_ok_proj (instructions : List (String × Instruction))
    (families : List (String × Family)) (pseudos : List (String × PseudoInstruction))
    (hkv : ∀ e ∈ instructions, e.2.name = e.1)
    (hkeys : (pyKeys instructions).Nodup)
    (hpk : (pyKeys pseudos).Nodup)
    (hpd : ∀ nm ∈ pyKeys pseudos, nm ∉ pyKeys instmapInit ∧ nm ∉ pyKeys instructions ∧
      nm ∉ specializedOf families)
    (hassert : 150 + (specializedOf families).length <
      255 - (instrumentedOf instructions).length) :
    (assign_opcodes instructions families pseudos).map
        (fun r => (r.1, r.2.1, r.2.2.1)) =
      Except.ok (specOpmap instructions families pseudos,
        (opargPartition instructions (specializedOf families)
          (instrumentedOf instructions)).1.length,
        255 - (instrumentedOf instructions).length) := by
  have hnames : (pyValues instructions).map (fun i => i.name) = pyKeys instructions := by
    show ((instructions.map Prod.snd).map (fun i => i.name)) = instructions.map Prod.fst
    rw [List.map_map]
    exact List.map_congr_left (fun e he => hkv e he)
  have hfilter_nodup : ∀ (f : Instruction → Bool),
      (((pyValues instructions).filter f).map (fun i => i.name)).Nodup := by
    intro f
    have hsub : (((pyValues instructions).filter f).map (fun i => i.name)).Sublist
        ((pyValues instructions).map (fun i => i.name)) :=
      (List.filter_sublist _).map _
    rw [hnames] at hsub
    exact List.Nodup.sublist hsub hkeys
  have hpartition := opargPartition_eq instructions (specializedOf families)
    (instrumentedOf instructions)
  have hna : (opargPartition instructions (specializedOf families)
      (instrumentedOf instructions)).1.Nodup := by
    rw [hpartition]; exact hfilter_nodup _
  have hha : (opargPartition instructions (specializedOf families)
      (instrumentedOf instructions)).2.Nodup := by
    rw [hpartition]; exact hfilter_nodup _
  have hsortna := pySorted_nodup _ hna
  have hsortha := pySorted_nodup _ hha
  have hsortspec := pySorted_nodup _ (specializedOf_nodup families)
  have hinstrnd : (instrumentedOf instructions).Nodup := hkeys.filter _
  have hsortpk := pySorted_nodup _ hpk
  -- membership of a partition component implies membership in the registry keys
  have hmem_part1 : ∀ nm, nm ∈ (opargPartition instructions (specializedOf families)
      (instrumentedOf instructions)).1 → nm ∈ pyKeys instructions := by
    intro nm hm
    rw [hpartition] at hm
    obtain ⟨i, hi, hie⟩ := List.mem_map.1 hm
    rw [← hnames]
    exact List.mem_map.2 ⟨i, (List.mem_filter.1 hi).1, hie⟩
  have hmem_part2 : ∀ nm, nm ∈ (opargPartition instructions (specializedOf families)
      (instrumentedOf instructions)).2 → nm ∈ pyKeys instructions := by
    intro nm hm
    rw [hpartition] at hm
    obtain ⟨i, hi, hie⟩ := List.mem_map.1 hm
    rw [← hnames]
    exact List.mem_map.2 ⟨i, (List.mem_filter.1 hi).1, hie⟩
  -- every registry key is numbered by the four phases
  have hcov : ∀ (st0 : List (String × Nat) × Nat) (cA cB : Nat),
      ∀ e ∈ instructions,
      (pyLookup ((instrumentedOf instructions).foldl addInstrOp
        (((pySorted (specializedOf families)).foldl addInstrOp
          (((pySorted (opargPartition instructions (specializedOf families)
              (instrumentedOf instructions)).2).foldl addInstrOp
            ((pySorted (opargPartition instructions (specializedOf families)
              (instrumentedOf instructions)).1).foldl addInstrOp st0)).1, cA)).1,
          cB)).1 e.1).isSome := by
    intro st0 cA cB e he
    have hname : e.2.name = e.1 := hkv e he
    by_cases hsp : e.1 ∈ specializedOf families
    · have h3 := foldl_addInstrOp_covers (pySorted (specializedOf families))
        (((pySorted (opargPartition instructions (specializedOf families)
          (instrumentedOf instructions)).2).foldl addInstrOp
          ((pySorted (opargPartition instructions (specializedOf families)
            (instrumentedOf instructions)).1).foldl addInstrOp st0)).1, cA)
        e.1 ((pySorted_mem _ _).2 hsp)
      obtain ⟨w, hw⟩ := Option.isSome_iff_exists.1 h3
      rw [foldl_addInstrOp_preserves (instrumentedOf instructions) (_, cB) e.1 w hw]
      rfl
    · by_cases hin : e.1 ∈ instrumentedOf instructions
      · exact foldl_addInstrOp_covers _ _ _ hin
      · have hv : e.2 ∈ pyValues instructions := List.mem_map_of_mem Prod.snd he
        have hspb : (specializedOf families).contains e.2.name = false := by
          rw [Bool.eq_false_iff]
          intro hc
          exact hsp (hname ▸ (strContains_iff_mem _ _).1 hc)
        have hinb : (instrumentedOf instructions).contains e.2.name = false := by
          rw [Bool.eq_false_iff]
          intro hc
          exact hin (hname ▸ (strContains_iff_mem _ _).1 hc)
        by_cases hop : e.2.properties.oparg
        · have hm2 : e.1 ∈ (opargPartition instructions (specializedOf families)
              (instrumentedOf instructions)).2 := by
            rw [hpartition]
            refine List.mem_map.2 ⟨e.2, List.mem_filter.2 ⟨hv, ?_⟩, hname⟩
            show (!(specializedOf families).contains e.2.name &&
              !(instrumentedOf instructions).contains e.2.name &&
              e.2.properties.oparg) = true
            rw [hspb, hinb, hop]
            rfl
          have h2 := foldl_addInstrOp_covers (pySorted (opargPartition instructions
            (specializedOf families) (instrumentedOf instructions)).2)
            ((pySorted (opargPartition instructions (specializedOf families)
              (instrumentedOf instructions)).1).foldl addInstrOp st0)
            e.1 ((pySorted_mem _ _).2 hm2)
          obtain ⟨w, hw⟩ := Option.isSome_iff_exists.1 h2
          have p3 := foldl_addInstrOp_preserves (pySorted (specializedOf families))
            (_, cA) e.1 w hw
          rw [foldl_addInstrOp_preserves (instrumentedOf instructions) (_, cB) e.1 w p3]
          rfl
        · have hopf : e.2.properties.oparg = false := Bool.eq_false_iff.2 hop
          have hm1 : e.1 ∈ (opargPartition instructions (specializedOf families)
              (instrumentedOf instructions)).1 := by
            rw [hpartition]
            refine List.mem_map.2 ⟨e.2, List.mem_filter.2 ⟨hv, ?_⟩, hname⟩
            show (!(specializedOf families).contains e.2.name &&
              !(instrumentedOf instructions).contains e.2.name &&
              !e.2.properties.oparg) = true
            rw [hspb, hinb, hopf]
            rfl
          have h1 := foldl_addInstrOp_covers (pySorted (opargPartition instructions
            (specializedOf families) (instrumentedOf instructions)).1)
            st0 e.1 ((pySorted_mem _ _).2 hm1)
          obtain ⟨w, hw⟩ := Option.isSome_iff_exists.1 h1
          have p2 := foldl_addInstrOp_preserves (pySorted (opargPartition instructions
            (specializedOf families) (instrumentedOf instructions)).2) _ e.1 w hw
          have p3 := foldl_addInstrOp_preserves (pySorted (specializedOf families))
            (_, cA) e.1 w p2
          rw [foldl_addInstrOp_preserves (instrumentedOf instructions) (_, cB) e.1 w p3]
          rfl
  -- pseudo names are fresh in the fully numbered instruction map
  have hfresh : ∀ (st0 : List (String × Nat) × Nat) (cA cB : Nat),
      pyLookup st0.1 "" = pyLookup st0.1 "" →
      ∀ nm ∈ pySorted (pyKeys pseudos),
      (st0 = (instmapInit, 1)) →
      pyLookup ((instrumentedOf instructions).foldl addInstrOp
        (((pySorted (specializedOf families)).foldl addInstrOp
          (((pySorted (opargPartition instructions (specializedOf families)
              (instrumentedOf instructions)).2).foldl addInstrOp
            ((pySorted (opargPartition instructions (specializedOf families)
              (instrumentedOf instructions)).1).foldl addInstrOp st0)).1, cA)).1,
          cB)).1 nm = none := by
    intro st0 cA cB _ nm hnm hst0
    subst hst0
    have hnm2 : nm ∈ pyKeys pseudos := (pySorted_mem _ _).1 hnm
    obtain ⟨hd1, hd2, hd3⟩ := hpd nm hnm2
    have hn1 : nm ∉ pySorted (opargPartition instructions (specializedOf families)
        (instrumentedOf instructions)).1 := by
      rw [pySorted_mem]
      exact fun hm => hd2 (hmem_part1 nm hm)
    have hn2 : nm ∉ pySorted (opargPartition instructions (specializedOf families)
        (instrumentedOf instructions)).2 := by
      rw [pySorted_mem]
      exact fun hm => hd2 (hmem_part2 nm hm)
    have hn3 : nm ∉ pySorted (specializedOf families) := by
      rw [pySorted_mem]
      exact hd3
    have hn4 : nm ∉ instrumentedOf instructions := by
      intro hm
      exact hd2 (List.mem_of_mem_filter hm)
    have h0 : pyLookup instmapInit nm = none :=
      pyLookup_eq_none_of_not_mem_keys instmapInit nm hd1
    apply foldl_addInstrOp_fresh _ _ _ hn4
    apply foldl_addInstrOp_fresh _ _ _ hn3
    apply foldl_addInstrOp_fresh _ _ _ hn2
    apply foldl_addInstrOp_fresh _ _ _ hn1
    exact h0
  obtain ⟨l1, hl1⟩ := mapM_opcodeWriteback_ok instructions _
    (hcov (instmapInit, 1) 150 (255 - (instrumentedOf instructions).length))
  simp only [assign_opcodes, assign_opcodes_spec, if_pos hassert]
  rw [foldl_pseudoStep_map (pySorted (pyKeys pseudos)) _ pseudos 256 hsortpk
    (fun nm hnm => hfresh (instmapInit, 1) 150
      (255 - (instrumentedOf instructions).length) rfl nm hnm rfl)]
  rw [hl1]
  rw [foldl_addInstrOp_spec _ instmapInit 1 hsortna,
    foldl_addInstrOp_spec _ _ _ hsortha,
    foldl_addInstrOp_spec _ _ _ hsortspec,
    foldl_addInstrOp_spec _ _ _ hinstrnd]
  simp [Except.map, Bind.bind, Except.bind, specOpmap]

/-- C2: for every instruction/family/pseudo registry (well-formed: entries
named by their keys, duplicate-free keys, pseudo names fresh), opcode
assignment refines the claimed numbering policy: non-fixed instructions
are numbered no-oparg first then has-oparg, each in sorted name order,
from a shared cursor starting at 1 that skips taken values; specialized
instructions in sorted name order from 150; instrumented instructions in
registry order from `254 - (count - 1)`; pseudo-instructions in sorted
name order from 256; and the range check `150 + specialized count <
min_instrumented` is an assertion. -/
theorem c2_opcode_numbering (instructions : List (String × Instruction))
    (families : List (String × Family)) (pseudos : List (String × PseudoInstruction))
    (hkv : ∀ e ∈ instructions, e.2.name = e.1)
    (hkeys : (pyKeys instructions).Nodup)
    (hpk : (pyKeys pseudos).Nodup)
    (hpd : ∀ nm ∈ pyKeys pseudos, nm ∉ pyKeys instmapInit ∧ nm ∉ pyKeys instructions ∧
      nm ∉ specializedOf families) :
    (assign_opcodes instructions families pseudos).map
        (fun r => (r.1, r.2.1, r.2.2.1)) =
      assign_opcodes_spec instructions families pseudos := by
  by_cases hassert : 150 + (specializedOf families).length <
      255 - (instrumentedOf instructions).length
  case neg =>
    simp only [assign_opcodes, assign_opcodes_spec, if_neg hassert]
    rfl
  case pos =>
    rw [assign_opcodes_ok_proj instructions families pseudos hkv hkeys hpk hpd hassert]
    simp only [assign_opcodes_spec, if_pos hassert]


theorem c2_opcode_numbering_witness :
    (∀ e ∈ [("MYOP", c2w_instr)], e.2.name = e.1) ∧
    ((assign_opcodes [("MYOP", c2w_instr)] [] []).map
        (fun r => (r.1, r.2.1, r.2.2.1)) =
      assign_opcodes_spec [("MYOP", c2w_instr)] [] []) :=
  ⟨by decide, c2_opcode_numbering [("MYOP", c2w_instr)] [] [] (by decide) (by decide)
    (by decide) (by decide)⟩

end CasesAnalyzer
